import Mathlib

/-! gopatchinator: the rule evaluation engine

A shallow embedding of `patchinator.go`. The Go standard library and the
JSON Patch library are not part of the repository; they enter as parameters:

* `Compile : String → Except String R` is `regexp.Compile` (`R` is the type of
  compiled expressions), `Match : R → String → Bool` is `(*Regexp).Match`;
* `Unmarshal : Bytes → Except String (Patch V)` is `json.Unmarshal` into a
  `Patch` (`V` is the type of decoded JSON values, Go's `interface{}`);
* `DecodePatch` and `PatcherApply` are `jsonpatch.DecodePatch` and
  `jsonpatch.Patch.Apply`.

A Go `error` is identified with its message. `ShouldAllow` callbacks are pure
total functions of the path and the value.
-/

set_option linter.dupNamespace false

namespace Gopatchinator

/-- A Go `error` value, identified by its message; `none` is the `nil` error. -/
abbrev GoError := Option String

/-- A Go `[]byte`. -/
abbrev Bytes := List UInt8

/-- The outcome of running a Go function body: it returns a value, or the
goroutine panics on the dereference of a nil pointer. -/
inductive Exec (α : Type) where
  | ret : α → Exec α
  | nilDeref : Exec α
deriving DecidableEq

/-- The Go struct `Op`: one decoded patch operation. -/
structure Op (V : Type) where
  Op : String
  Path : String
  Value : V

/-- The Go type `Patch`, a slice of operations. -/
abbrev Patch (V : Type) := List (Op V)

/-- The Go struct `PatchRule`. The pointer `rex` is `none` when nil, and the
function value `ShouldAllow` is `none` when nil. -/
structure PatchRule (R V : Type) where
  Op : List String
  rex : Option R
  Path : String
  Deny : Bool
  ShouldAllow : Option (String → V → Bool)

/-- The Go type `PatchRules`, a slice of rules. -/
abbrev PatchRules (R V : Type) := List (PatchRule R V)

/-- The Go struct `patchinator`. -/
structure patchinator (R V : Type) where
  rules : PatchRules R V
  whitelist : Bool

section Engine

variable {R V : Type}

/-- The loop `for i, rule := range rules` of `NewPatchinator`: the contents of
the slice `rules` when the loop is left, and the error it is left with (`none`
when it runs to the end). -/
def compileRules (Compile : String → Except String R) :
    PatchRules R V → PatchRules R V × GoError
  | [] => ([], none)
  | rule :: rest =>
    match Compile rule.Path with
    | .error err => (rule :: rest, some err)
    | .ok rex =>
      (({ rule with rex := some rex } : PatchRule R V) :: (compileRules Compile rest).1,
        (compileRules Compile rest).2)

/-- The Go function `NewPatchinator`, returning the pair `(Patchinator, error)`. -/
def NewPatchinator (Compile : String → Except String R) (rules : PatchRules R V) :
    Option (patchinator R V) × GoError :=
  match (compileRules Compile rules).2 with
  | some err => (none, some err)
  | none => (some { rules := (compileRules Compile rules).1, whitelist := false }, none)

/-- The Go method `(*patchinator).IsWhitelist`. -/
def patchinator.IsWhitelist (p : patchinator R V) (whitelist : Bool) : patchinator R V :=
  { p with whitelist := whitelist }

/-- The Go function `verifyOperation(op string, opList []string)`. -/
def verifyOperation (op : String) (opList : List String) : GoError :=
  let hasOp := opList.foldl (fun hasOp operation => if operation = op then true else hasOp) false
  if !hasOp then
    some (op ++ " is not in the list of acceptable operations")
  else
    none

/-- The loop of the Go method `(*patchinator).verifyWhitelist` over the rules
still to be visited, followed by the final `return`. -/
def verifyWhitelistLoop (Match : R → String → Bool) (op : Op V) :
    PatchRules R V → Exec GoError
  | [] => .ret (some (op.Path ++ " is not whitelisted"))
  | rule :: rest =>
    match rule.rex with
    | none => .nilDeref
    | some rex =>
      if Match rex op.Path then
        match verifyOperation op.Op rule.Op with
        | some err => .ret (some err)
        | none =>
          match rule.ShouldAllow with
          | some f =>
            if f op.Path op.Value == false then
              .ret (some (op.Path ++ " is not allowed"))
            else if rule.Deny then
              .ret (some (op.Path ++ " is not allowed"))
            else
              .ret none
          | none =>
            if rule.Deny then
              .ret (some (op.Path ++ " is not allowed"))
            else
              .ret none
      else
        verifyWhitelistLoop Match op rest

/-- The Go method `(*patchinator).verifyWhitelist`. -/
def patchinator.verifyWhitelist (Match : R → String → Bool) (p : patchinator R V)
    (op : Op V) : Exec GoError :=
  verifyWhitelistLoop Match op p.rules

/-- The loop of the Go method `(*patchinator).verifyBlacklist` over the rules
still to be visited, followed by the final `return nil`. -/
def verifyBlacklistLoop (Match : R → String → Bool) (op : Op V) :
    PatchRules R V → Exec GoError
  | [] => .ret none
  | rule :: rest =>
    match rule.rex with
    | none => .nilDeref
    | some rex =>
      if Match rex op.Path then
        match verifyOperation op.Op rule.Op with
        | some err => .ret (some err)
        | none =>
          if rule.Deny then
            .ret (some (op.Path ++ " is not allowed"))
          else
            match rule.ShouldAllow with
            | some f =>
              if f op.Path op.Value == false then
                .ret (some (op.Path ++ " is not allowed"))
              else
                verifyBlacklistLoop Match op rest
            | none => verifyBlacklistLoop Match op rest
      else
        verifyBlacklistLoop Match op rest

/-- The Go method `(*patchinator).verifyBlacklist`. -/
def patchinator.verifyBlacklist (Match : R → String → Bool) (p : patchinator R V)
    (op : Op V) : Exec GoError :=
  verifyBlacklistLoop Match op p.rules

/-- The Go method `(*patchinator).verifyOperation(op Op)`. -/
def patchinator.verifyOperation (Match : R → String → Bool) (p : patchinator R V)
    (op : Op V) : Exec GoError :=
  if p.whitelist then
    p.verifyWhitelist Match op
  else
    p.verifyBlacklist Match op

/-- The loop `for _, op := range patch` of `Run`, followed by `return nil`. -/
def runLoop (Match : R → String → Bool) (p : patchinator R V) :
    Patch V → Exec GoError
  | [] => .ret none
  | op :: rest =>
    match p.verifyOperation Match op with
    | .nilDeref => .nilDeref
    | .ret (some err) => .ret (some err)
    | .ret none => runLoop Match p rest

/-- The Go method `(*patchinator).Run`. -/
def patchinator.Run (Unmarshal : Bytes → Except String (Patch V))
    (Match : R → String → Bool) (p : patchinator R V) (bytes : Bytes) : Exec GoError :=
  match Unmarshal bytes with
  | .error err => .ret (some err)
  | .ok patch => runLoop Match p patch

/-- The Go method `(*patchinator).Apply`, returning the pair `([]byte, error)`.
`P` is the type of patches decoded by the JSON Patch library. -/
def patchinator.Apply {P : Type} (Unmarshal : Bytes → Except String (Patch V))
    (Match : R → String → Bool) (DecodePatch : Bytes → Except String P)
    (PatcherApply : P → Bytes → Option Bytes × GoError)
    (p : patchinator R V) (patch original : Bytes) : Exec (Option Bytes × GoError) :=
  match p.Run Unmarshal Match patch with
  | .nilDeref => .nilDeref
  | .ret (some err) => .ret (none, some err)
  | .ret none =>
    match DecodePatch patch with
    | .error err => .ret (none, some err)
    | .ok patcher => .ret (PatcherApply patcher original)

/-! ### Vocabulary of the specification -/

/-- The rule has a compiled pattern and it matches the path. -/
def PatchRule.Matches (Match : R → String → Bool) (rule : PatchRule R V) (path : String) :
    Bool :=
  match rule.rex with
  | some rex => Match rex path
  | none => false

/-- The rule has a compiled pattern and it does not match the path. -/
def PatchRule.Misses (Match : R → String → Bool) (rule : PatchRule R V) (path : String) :
    Bool :=
  match rule.rex with
  | some rex => !Match rex path
  | none => false

/-- The rule accepts the operation: the kind is in the rule's `Op` list, `Deny`
is false and `ShouldAllow` is nil or returns true on the path and the value. -/
def PatchRule.Accepts (rule : PatchRule R V) (op : Gopatchinator.Op V) : Bool :=
  decide (op.Op ∈ rule.Op) && !rule.Deny &&
    (match rule.ShouldAllow with
     | some f => f op.Path op.Value
     | none => true)

/-- The verdict of one matched rule in allow-list mode as the specification
words it: the kind is checked first, then the `admit` predicate, then `deny`. -/
def allowListVerdict (rule : PatchRule R V) (op : Op V) : GoError :=
  if op.Op ∉ rule.Op then
    some (op.Op ++ " is not in the list of acceptable operations")
  else if (match rule.ShouldAllow with
           | some f => f op.Path op.Value == false
           | none => false) then
    some (op.Path ++ " is not allowed")
  else if rule.Deny = true then
    some (op.Path ++ " is not allowed")
  else
    none

/-- The verdict of one matched rule in deny-list mode as the specification
words it: the kind is checked first, then `deny`, then the `admit` predicate;
`none` lets the operation through. -/
def denyListVerdict (rule : PatchRule R V) (op : Op V) : GoError :=
  if op.Op ∉ rule.Op then
    some (op.Op ++ " is not in the list of acceptable operations")
  else if rule.Deny = true then
    some (op.Path ++ " is not allowed")
  else if (match rule.ShouldAllow with
           | some f => f op.Path op.Value == false
           | none => false) then
    some (op.Path ++ " is not allowed")
  else
    none

/-- What compiling does to one rule: every exported field is kept and `rex` is
the compiled `Path`. -/
def CompiledFrom (Compile : String → Except String R) (rule rule' : PatchRule R V) : Prop :=
  rule'.Op = rule.Op ∧ rule'.Path = rule.Path ∧ rule'.Deny = rule.Deny ∧
    rule'.ShouldAllow = rule.ShouldAllow ∧
    ∃ rex, Compile rule.Path = .ok rex ∧ rule'.rex = some rex

end Engine

/-! ### A concrete matcher for evaluating the engine

The fragment of the pattern language without metacharacters: such a pattern
compiles, and Go's unanchored `Match` finds it exactly in the texts that
contain it as a contiguous run of characters. -/

/-- The characters with a special meaning in a Go regular expression. -/
def metaChars : List Char :=
  ['\\', '.', '+', '*', '?', '(', ')', '|', '[', ']', '{', '}', '^', '$']

/-- Does `s` contain `pat` as a contiguous run? -/
def containsRun (pat : List Char) : List Char → Bool
  | [] => pat.isEmpty
  | c :: s => pat.isPrefixOf (c :: s) || containsRun pat s

/-- Compilation of a literal pattern; a pattern with a metacharacter lies
outside the fragment and is refused, with a message of this model. -/
def literalCompile (pattern : String) : Except String String :=
  if pattern.data.any (fun c => metaChars.contains c) then
    .error ("error parsing regexp: " ++ pattern)
  else
    .ok pattern

/-- Unanchored matching of a compiled literal pattern. -/
def literalMatch (rex : String) (text : String) : Bool :=
  containsRun rex.data text.data

/-! ### A model of the pattern language

Go's `regexp` package is not part of the sources. The model covers the patterns
built from literal characters, `.`, a `*` after a literal character or `.`, and
the anchors `^` and `$`; every other pattern is refused. -/

/-- Modelled from the spec: a single-character expression of the missing `regexp`
package, a literal character or `.` (any character but a newline). -/
inductive Atom where
  | lit : Char → Atom
  | dot : Atom
deriving DecidableEq

/-- Modelled from the spec: does the single-character expression match `c`? -/
def Atom.accepts : Atom → Char → Bool
  | .lit a, c => decide (a = c)
  | .dot, c => !decide (c = '\n')

/-- Modelled from the spec: one item of a compiled pattern of the missing `regexp`
package: a single character, a starred single character, `^` or `$`. -/
inductive Item where
  | one : Atom → Item
  | star : Atom → Item
  | bol : Item
  | eol : Item
deriving DecidableEq

/-- Modelled from the spec: a compiled expression (`*regexp.Regexp`, missing from
the sources), the items to be matched one after the other. -/
abbrev Regexp := List Item

/-- Modelled from the spec: the single-character expression written `c`, if any. -/
def atomOf (c : Char) : Option Atom :=
  if c = '.' then some .dot
  else if metaChars.contains c then none
  else some (.lit c)

/-- Modelled from the spec: the item written by the single character `c` when no
`*` follows it, if any. -/
def itemOf (c : Char) : Option Item :=
  if c = '^' then some Item.bol
  else if c = '$' then some Item.eol
  else (atomOf c).map Item.one

/-- Modelled from the spec: the parser behind `regexp.Compile` (missing from the
sources), on the characters still to be read. `starred` says that the character
just read is a starred one, whose `*` comes next; `whole` is the pattern, for
the message. -/
def parseItems (whole : String) : Bool → List Char → Except String Regexp
  | _, [] => .ok []
  | starred, c :: rest =>
    if c = '*' then
      if starred then parseItems whole false rest
      else .error ("error parsing regexp: " ++ whole)
    else if rest.head? = some '*' then
      match atomOf c with
      | some a =>
        match parseItems whole true rest with
        | .ok items => .ok (Item.star a :: items)
        | .error err => .error err
      | none => .error ("error parsing regexp: " ++ whole)
    else
      match itemOf c with
      | some item =>
        match parseItems whole false rest with
        | .ok items => .ok (item :: items)
        | .error err => .error err
      | none => .error ("error parsing regexp: " ++ whole)

/-- Modelled from the spec: `regexp.Compile` (missing from the sources). -/
def modelCompile (pattern : String) : Except String Regexp :=
  parseItems pattern false pattern.data

/-- Modelled from the spec: a starred single character followed by the rest of
the pattern, whose matcher is `k`: the rest matches here, or the character is
consumed and the star is tried again. -/
def starLoop (a : Atom) (k : Bool → List Char → Bool) : Bool → List Char → Bool
  | atStart, [] => k atStart []
  | atStart, c :: s => k atStart (c :: s) || (a.accepts c && starLoop a k false s)

/-- Modelled from the spec: do the items match a run of characters that begins
at the head of the text? `atStart` says that the head is the beginning of the
whole text. -/
def matchHere : Regexp → Bool → List Char → Bool
  | [], _, _ => true
  | .one a :: items, _, s =>
    match s with
    | [] => false
    | c :: s' => a.accepts c && matchHere items false s'
  | .star a :: items, atStart, s => starLoop a (matchHere items) atStart s
  | .bol :: items, atStart, s => atStart && matchHere items atStart s
  | .eol :: items, atStart, s => s.isEmpty && matchHere items atStart s

/-- Modelled from the spec: do the items match somewhere after the first
character of the text? -/
def matchLater (items : Regexp) : List Char → Bool
  | [] => false
  | _ :: s => matchHere items false s || matchLater items s

/-- Modelled from the spec: `(*Regexp).Match` (missing from the sources),
unanchored: the pattern matches if it matches some run of characters of the text. -/
def modelMatch (rex : Regexp) (text : String) : Bool :=
  matchHere rex true text.data || matchLater rex text.data

/-! ### Concrete policies and operations, after the test suite -/

namespace Example

/-- The operation of the test suite: `replace` of `/a/b` by `"c"`. -/
def replaceAB : Op String := ⟨"replace", "/a/b", "c"⟩

/-- An operation on a path no example rule mentions. -/
def addXY : Op String := ⟨"add", "/x/y", "v"⟩

/-- A compiled rule for the literal pattern `path`. -/
def rule (ops : List String) (path : String) (deny : Bool)
    (shouldAllow : Option (String → String → Bool)) : PatchRule String String :=
  { Op := ops, rex := some path, Path := path, Deny := deny, ShouldAllow := shouldAllow }

/-- An uncompiled rule, as a caller of `NewPatchinator` writes it. -/
def rawRule (ops : List String) (path : String) (deny : Bool) : PatchRule String String :=
  { Op := ops, rex := none, Path := path, Deny := deny, ShouldAllow := none }

end Example

end Gopatchinator

/-! ## Theorems -/

namespace Gopatchinator

section Lemmas

variable {R V : Type}

theorem foldl_hasOp (op : String) (l : List String) (b : Bool) :
    l.foldl (fun hasOp operation => if operation = op then true else hasOp) b
      = (b || decide (op ∈ l)) := by
  induction l generalizing b with
  | nil => simp
  | cons a l ih =>
    rw [List.foldl_cons, ih]
    by_cases h : a = op
    · subst h
      simp
    · have h2 : ¬ op = a := fun e => h e.symm
      rw [if_neg h]
      simp [h2]

theorem verifyOperation_of_mem {op : String} {l : List String} (h : op ∈ l) :
    verifyOperation op l = none := by
  unfold verifyOperation
  rw [foldl_hasOp]
  simp [h]

theorem verifyOperation_of_not_mem {op : String} {l : List String} (h : op ∉ l) :
    verifyOperation op l = some (op ++ " is not in the list of acceptable operations") := by
  unfold verifyOperation
  rw [foldl_hasOp]
  simp [h]

theorem verifyWhitelistLoop_skip (Match : R → String → Bool) (op : Op V)
    (pre rest : PatchRules R V) (h : ∀ rule ∈ pre, rule.Misses Match op.Path = true) :
    verifyWhitelistLoop Match op (pre ++ rest) = verifyWhitelistLoop Match op rest := by
  induction pre with
  | nil => rfl
  | cons a pre ih =>
    have ha := h a (List.mem_cons_self _ _)
    have ih2 := ih (fun r hr => h r (List.mem_cons_of_mem _ hr))
    cases hrex : a.rex with
    | none => simp [PatchRule.Misses, hrex] at ha
    | some rex =>
      simp [PatchRule.Misses, hrex] at ha
      simp [verifyWhitelistLoop, hrex, ha, ih2]

theorem verifyBlacklistLoop_skip (Match : R → String → Bool) (op : Op V)
    (pre rest : PatchRules R V) (h : ∀ rule ∈ pre, rule.Misses Match op.Path = true) :
    verifyBlacklistLoop Match op (pre ++ rest) = verifyBlacklistLoop Match op rest := by
  induction pre with
  | nil => rfl
  | cons a pre ih =>
    have ha := h a (List.mem_cons_self _ _)
    have ih2 := ih (fun r hr => h r (List.mem_cons_of_mem _ hr))
    cases hrex : a.rex with
    | none => simp [PatchRule.Misses, hrex] at ha
    | some rex =>
      simp [PatchRule.Misses, hrex] at ha
      simp [verifyBlacklistLoop, hrex, ha, ih2]

theorem verifyBlacklistLoop_all_miss (Match : R → String → Bool) (op : Op V)
    (rules : PatchRules R V) (h : ∀ rule ∈ rules, rule.Misses Match op.Path = true) :
    verifyBlacklistLoop Match op rules = .ret none := by
  have := verifyBlacklistLoop_skip Match op rules [] h
  simpa [verifyBlacklistLoop] using this

theorem verifyWhitelistLoop_all_miss (Match : R → String → Bool) (op : Op V)
    (rules : PatchRules R V) (h : ∀ rule ∈ rules, rule.Misses Match op.Path = true) :
    verifyWhitelistLoop Match op rules
      = .ret (some (op.Path ++ " is not whitelisted")) := by
  have := verifyWhitelistLoop_skip Match op rules [] h
  simpa [verifyWhitelistLoop] using this

/-- In allow-list mode the loop stops at a matching rule with that rule's verdict. -/
theorem verifyWhitelistLoop_matched (Match : R → String → Bool) (op : Op V)
    (rule : PatchRule R V) (rest : PatchRules R V)
    (h : rule.Matches Match op.Path = true) :
    verifyWhitelistLoop Match op (rule :: rest) = .ret (allowListVerdict rule op) := by
  cases hrex : rule.rex with
  | none => simp [PatchRule.Matches, hrex] at h
  | some rex =>
    simp [PatchRule.Matches, hrex] at h
    by_cases hk : op.Op ∈ rule.Op
    · cases hs : rule.ShouldAllow with
      | none =>
        cases hd : rule.Deny <;>
          simp [verifyWhitelistLoop, allowListVerdict, hrex, h, hk, hs, hd,
            verifyOperation_of_mem hk]
      | some f =>
        cases hd : rule.Deny <;> cases hf : f op.Path op.Value <;>
          simp [verifyWhitelistLoop, allowListVerdict, hrex, h, hk, hs, hd, hf,
            verifyOperation_of_mem hk]
    · simp [verifyWhitelistLoop, allowListVerdict, hrex, h, hk,
        verifyOperation_of_not_mem hk]

/-- In deny-list mode a matching rule either ends the loop with its rejection or
lets the loop go on to the next rule. -/
theorem verifyBlacklistLoop_matched (Match : R → String → Bool) (op : Op V)
    (rule : PatchRule R V) (rest : PatchRules R V)
    (h : rule.Matches Match op.Path = true) :
    verifyBlacklistLoop Match op (rule :: rest) =
      match denyListVerdict rule op with
      | some err => .ret (some err)
      | none => verifyBlacklistLoop Match op rest := by
  cases hrex : rule.rex with
  | none => simp [PatchRule.Matches, hrex] at h
  | some rex =>
    simp [PatchRule.Matches, hrex] at h
    by_cases hk : op.Op ∈ rule.Op
    · cases hs : rule.ShouldAllow with
      | none =>
        cases hd : rule.Deny <;>
          simp [verifyBlacklistLoop, denyListVerdict, hrex, h, hk, hs, hd,
            verifyOperation_of_mem hk]
      | some f =>
        cases hd : rule.Deny <;> cases hf : f op.Path op.Value <;>
          simp [verifyBlacklistLoop, denyListVerdict, hrex, h, hk, hs, hd, hf,
            verifyOperation_of_mem hk]
    · simp [verifyBlacklistLoop, denyListVerdict, hrex, h, hk,
        verifyOperation_of_not_mem hk]

theorem denyListVerdict_of_accepts (rule : PatchRule R V) (op : Op V)
    (h : rule.Accepts op = true) : denyListVerdict rule op = none := by
  unfold PatchRule.Accepts at h
  cases hs : rule.ShouldAllow with
  | none => simp [hs] at h; simp [denyListVerdict, h, hs]
  | some f => simp [hs] at h; simp [denyListVerdict, h, hs]

theorem allowListVerdict_of_accepts (rule : PatchRule R V) (op : Op V)
    (h : rule.Accepts op = true) : allowListVerdict rule op = none := by
  unfold PatchRule.Accepts at h
  cases hs : rule.ShouldAllow with
  | none => simp [hs] at h; simp [allowListVerdict, h, hs]
  | some f => simp [hs] at h; simp [allowListVerdict, h, hs]

/-- Deny-list mode accepts when every rule misses the path or accepts the operation. -/
theorem verifyBlacklistLoop_all_pass (Match : R → String → Bool) (op : Op V)
    (rules : PatchRules R V)
    (h : ∀ rule ∈ rules, rule.Misses Match op.Path = true ∨
      (rule.Matches Match op.Path = true ∧ rule.Accepts op = true)) :
    verifyBlacklistLoop Match op rules = .ret none := by
  induction rules with
  | nil => rfl
  | cons a rules ih =>
    have ih2 := ih (fun r hr => h r (List.mem_cons_of_mem _ hr))
    rcases h a (List.mem_cons_self _ _) with hm | ⟨hm, hacc⟩
    · have := verifyBlacklistLoop_skip Match op [a] rules (by simpa using hm)
      simpa [ih2] using this
    · rw [verifyBlacklistLoop_matched Match op a rules hm,
        denyListVerdict_of_accepts a op hacc]
      exact ih2

/-- The loop of `Run` returns nil exactly when every operation is accepted. -/
theorem runLoop_eq_nil_iff (Match : R → String → Bool) (p : patchinator R V)
    (patch : Patch V) :
    runLoop Match p patch = .ret none
      ↔ ∀ op ∈ patch, p.verifyOperation Match op = .ret none := by
  induction patch with
  | nil => simp [runLoop]
  | cons a patch ih =>
    cases hv : p.verifyOperation Match a with
    | nilDeref => simp [runLoop, hv]
    | ret e =>
      cases e with
      | none => simp [runLoop, hv, ih]
      | some err => simp [runLoop, hv]

/-- The loop of `Run` stops at the first rejected operation with its error. -/
theorem runLoop_first_rejection (Match : R → String → Bool) (p : patchinator R V)
    (pre post : Patch V) (op : Op V) (err : String)
    (hpre : ∀ o ∈ pre, p.verifyOperation Match o = .ret none)
    (hop : p.verifyOperation Match op = .ret (some err)) :
    runLoop Match p (pre ++ op :: post) = .ret (some err) := by
  induction pre with
  | nil => simp [runLoop, hop]
  | cons a pre ih =>
    have ha := hpre a (List.mem_cons_self _ _)
    have ih2 := ih (fun o ho => hpre o (List.mem_cons_of_mem _ ho))
    simpa [runLoop, ha] using ih2

/-- An error returned by the loop of `Run` is the error of the first operation
that is not accepted. -/
theorem runLoop_error_origin (Match : R → String → Bool) (p : patchinator R V)
    (patch : Patch V) (err : String) (h : runLoop Match p patch = .ret (some err)) :
    ∃ pre op post, patch = pre ++ op :: post ∧
      (∀ o ∈ pre, p.verifyOperation Match o = .ret none) ∧
      p.verifyOperation Match op = .ret (some err) := by
  induction patch with
  | nil => simp [runLoop] at h
  | cons a patch ih =>
    cases hv : p.verifyOperation Match a with
    | nilDeref => simp [runLoop, hv] at h
    | ret e =>
      cases e with
      | none =>
        simp [runLoop, hv] at h
        obtain ⟨pre, op, post, hp, hpre, hop⟩ := ih h
        refine ⟨a :: pre, op, post, by simp [hp], ?_, hop⟩
        intro o ho
        rcases List.mem_cons.1 ho with rfl | ho
        · exact hv
        · exact hpre o ho
      | some e2 =>
        simp [runLoop, hv] at h
        subst h
        exact ⟨[], a, patch, rfl, by simp, hv⟩

theorem verifyWhitelistLoop_returns (Match : R → String → Bool) (op : Op V)
    (rules : PatchRules R V) (h : ∀ rule ∈ rules, rule.rex ≠ none) :
    ∃ e, verifyWhitelistLoop Match op rules = .ret e := by
  induction rules with
  | nil => exact ⟨_, rfl⟩
  | cons a rules ih =>
    have ih2 := ih (fun r hr => h r (List.mem_cons_of_mem _ hr))
    cases hrex : a.rex with
    | none => exact absurd hrex (h a (List.mem_cons_self _ _))
    | some rex =>
      by_cases hm : a.Matches Match op.Path = true
      · exact ⟨_, verifyWhitelistLoop_matched Match op a rules hm⟩
      · have hmiss : a.Misses Match op.Path = true := by
          simp [PatchRule.Matches, hrex] at hm
          simp [PatchRule.Misses, hrex, hm]
        have := verifyWhitelistLoop_skip Match op [a] rules (by simpa using hmiss)
        obtain ⟨e, he⟩ := ih2
        exact ⟨e, by simpa [he] using this⟩

theorem verifyBlacklistLoop_returns (Match : R → String → Bool) (op : Op V)
    (rules : PatchRules R V) (h : ∀ rule ∈ rules, rule.rex ≠ none) :
    ∃ e, verifyBlacklistLoop Match op rules = .ret e := by
  induction rules with
  | nil => exact ⟨_, rfl⟩
  | cons a rules ih =>
    obtain ⟨e, he⟩ := ih (fun r hr => h r (List.mem_cons_of_mem _ hr))
    cases hrex : a.rex with
    | none => exact absurd hrex (h a (List.mem_cons_self _ _))
    | some rex =>
      by_cases hm : a.Matches Match op.Path = true
      · rw [verifyBlacklistLoop_matched Match op a rules hm]
        cases hd : denyListVerdict a op with
        | none => exact ⟨e, he⟩
        | some err => exact ⟨_, rfl⟩
      · have hmiss : a.Misses Match op.Path = true := by
          simp [PatchRule.Matches, hrex] at hm
          simp [PatchRule.Misses, hrex, hm]
        have := verifyBlacklistLoop_skip Match op [a] rules (by simpa using hmiss)
        exact ⟨e, by simpa [he] using this⟩

/-- With every matcher compiled, verifying an operation returns. -/
theorem verifyOperation_returns (Match : R → String → Bool) (p : patchinator R V)
    (op : Op V) (h : ∀ rule ∈ p.rules, rule.rex ≠ none) :
    ∃ e, p.verifyOperation Match op = .ret e := by
  cases hw : p.whitelist with
  | true =>
    simpa [patchinator.verifyOperation, patchinator.verifyWhitelist, hw]
      using verifyWhitelistLoop_returns Match op p.rules h
  | false =>
    simpa [patchinator.verifyOperation, patchinator.verifyBlacklist, hw]
      using verifyBlacklistLoop_returns Match op p.rules h

/-- With every matcher compiled, the loop of `Run` returns. -/
theorem runLoop_returns (Match : R → String → Bool) (p : patchinator R V)
    (patch : Patch V) (h : ∀ rule ∈ p.rules, rule.rex ≠ none) :
    ∃ e, runLoop Match p patch = .ret e := by
  induction patch with
  | nil => exact ⟨_, rfl⟩
  | cons a patch ih =>
    obtain ⟨e, he⟩ := verifyOperation_returns Match p a h
    cases e with
    | none => simpa [runLoop, he] using ih
    | some err => exact ⟨some err, by simp [runLoop, he]⟩

theorem compileRules_error_iff (Compile : String → Except String R)
    (rules : PatchRules R V) :
    (compileRules Compile rules).2 ≠ none
      ↔ ∃ rule ∈ rules, ∃ e, Compile rule.Path = .error e := by
  induction rules with
  | nil => simp [compileRules]
  | cons a rules ih =>
    cases hc : Compile a.Path with
    | error e => simp [compileRules, hc]
    | ok rex => simp [compileRules, hc, ih]

theorem compileRules_first_error (Compile : String → Except String R)
    (pre post : PatchRules R V) (rule : PatchRule R V) (e : String)
    (hpre : ∀ r ∈ pre, ∃ rex, Compile r.Path = .ok rex)
    (herr : Compile rule.Path = .error e) :
    (compileRules Compile (pre ++ rule :: post)).2 = some e := by
  induction pre with
  | nil => simp [compileRules, herr]
  | cons a pre ih =>
    obtain ⟨rex, hrex⟩ := hpre a (List.mem_cons_self _ _)
    have ih2 := ih (fun r hr => hpre r (List.mem_cons_of_mem _ hr))
    simpa [compileRules, hrex] using ih2

theorem compileRules_all_ok (Compile : String → Except String R)
    (rules : PatchRules R V) (h : ∀ r ∈ rules, ∃ rex, Compile r.Path = .ok rex) :
    (compileRules Compile rules).2 = none ∧
      List.Forall₂ (CompiledFrom Compile) rules (compileRules Compile rules).1 := by
  induction rules with
  | nil => simp [compileRules]
  | cons a rules ih =>
    obtain ⟨rex, hrex⟩ := h a (List.mem_cons_self _ _)
    obtain ⟨ih1, ih2⟩ := ih (fun r hr => h r (List.mem_cons_of_mem _ hr))
    refine ⟨by simp [compileRules, hrex, ih1], ?_⟩
    simp only [compileRules, hrex]
    exact List.Forall₂.cons ⟨rfl, rfl, rfl, rfl, rex, hrex, rfl⟩ ih2

/-- The two modes test `Deny` and `ShouldAllow` in opposite orders, with the
same message: one matched rule gives the same verdict in both. -/
theorem allowListVerdict_eq_denyListVerdict (rule : PatchRule R V) (op : Op V) :
    allowListVerdict rule op = denyListVerdict rule op := by
  unfold allowListVerdict denyListVerdict
  by_cases hk : op.Op ∈ rule.Op
  · cases hs : rule.ShouldAllow with
    | none => cases hd : rule.Deny <;> simp [hk]
    | some f => cases hd : rule.Deny <;> cases hf : f op.Path op.Value <;> simp [hk, hf]
  · simp [hk]

/-- The messages a single rule can reject with. -/
theorem denyListVerdict_form (rule : PatchRule R V) (op : Op V) (err : String)
    (h : denyListVerdict rule op = some err) :
    err = op.Op ++ " is not in the list of acceptable operations" ∨
      err = op.Path ++ " is not allowed" := by
  unfold denyListVerdict at h
  split at h
  · exact Or.inl (Option.some.inj h).symm
  · split at h
    · exact Or.inr (Option.some.inj h).symm
    · split at h
      · exact Or.inr (Option.some.inj h).symm
      · exact absurd h (by simp)

theorem matches_or_misses (Match : R → String → Bool) (rule : PatchRule R V)
    (path : String) (h : rule.rex ≠ none) :
    rule.Matches Match path = true ∨ rule.Misses Match path = true := by
  cases hrex : rule.rex with
  | none => exact absurd hrex h
  | some rex => cases hm : Match rex path <;> simp [PatchRule.Matches, PatchRule.Misses, hrex, hm]

theorem verifyWhitelistLoop_cons_miss (Match : R → String → Bool) (op : Op V)
    (rule : PatchRule R V) (rest : PatchRules R V)
    (h : rule.Misses Match op.Path = true) :
    verifyWhitelistLoop Match op (rule :: rest) = verifyWhitelistLoop Match op rest :=
  verifyWhitelistLoop_skip Match op [rule] rest (by simpa using h)

theorem verifyBlacklistLoop_cons_miss (Match : R → String → Bool) (op : Op V)
    (rule : PatchRule R V) (rest : PatchRules R V)
    (h : rule.Misses Match op.Path = true) :
    verifyBlacklistLoop Match op (rule :: rest) = verifyBlacklistLoop Match op rest :=
  verifyBlacklistLoop_skip Match op [rule] rest (by simpa using h)

theorem verifyLoop_cons_nil_rex (Match : R → String → Bool) (op : Op V)
    (rule : PatchRule R V) (rest : PatchRules R V) (h : rule.rex = none) :
    verifyWhitelistLoop Match op (rule :: rest) = .nilDeref ∧
      verifyBlacklistLoop Match op (rule :: rest) = .nilDeref := by
  simp [verifyWhitelistLoop, verifyBlacklistLoop, h]

/-- The messages allow-list mode can reject with. -/
theorem verifyWhitelistLoop_error_form (Match : R → String → Bool) (op : Op V)
    (rules : PatchRules R V) (err : String)
    (h : verifyWhitelistLoop Match op rules = .ret (some err)) :
    err = op.Op ++ " is not in the list of acceptable operations" ∨
      err = op.Path ++ " is not allowed" ∨ err = op.Path ++ " is not whitelisted" := by
  induction rules with
  | nil =>
    simp [verifyWhitelistLoop] at h
    exact Or.inr (Or.inr h.symm)
  | cons a rules ih =>
    by_cases hrex : a.rex = none
    · rw [(verifyLoop_cons_nil_rex Match op a rules hrex).1] at h
      exact absurd h (by simp)
    · rcases matches_or_misses Match a op.Path hrex with hm | hm
      · rw [verifyWhitelistLoop_matched Match op a rules hm,
          allowListVerdict_eq_denyListVerdict] at h
        rcases denyListVerdict_form a op err (Exec.ret.inj h) with h1 | h1
        · exact Or.inl h1
        · exact Or.inr (Or.inl h1)
      · rw [verifyWhitelistLoop_cons_miss Match op a rules hm] at h
        exact ih h

/-- The messages deny-list mode can reject with. -/
theorem verifyBlacklistLoop_error_form (Match : R → String → Bool) (op : Op V)
    (rules : PatchRules R V) (err : String)
    (h : verifyBlacklistLoop Match op rules = .ret (some err)) :
    err = op.Op ++ " is not in the list of acceptable operations" ∨
      err = op.Path ++ " is not allowed" := by
  induction rules with
  | nil => simp [verifyBlacklistLoop] at h
  | cons a rules ih =>
    by_cases hrex : a.rex = none
    · rw [(verifyLoop_cons_nil_rex Match op a rules hrex).2] at h
      exact absurd h (by simp)
    · rcases matches_or_misses Match a op.Path hrex with hm | hm
      · rw [verifyBlacklistLoop_matched Match op a rules hm] at h
        cases hd : denyListVerdict a op with
        | none =>
          rw [hd] at h
          exact ih h
        | some e =>
          rw [hd] at h
          have he : e = err := Option.some.inj (Exec.ret.inj h)
          subst he
          exact denyListVerdict_form a op e hd
      · rw [verifyBlacklistLoop_cons_miss Match op a rules hm] at h
        exact ih h

/-- A message that begins with the string `s` contains `s`. -/
theorem infix_append_message (s suffix : String) : s.data <:+: (s ++ suffix).data := by
  rw [String.data_append]
  exact (List.prefix_append _ _).isInfix

/-- A policy of one rule that matches the path returns that rule's verdict, in
either mode. -/
theorem verifyOperation_single_matched (Match : R → String → Bool) (op : Op V)
    (rule : PatchRule R V) (whitelist : Bool) (h : rule.Matches Match op.Path = true) :
    patchinator.verifyOperation Match ⟨[rule], whitelist⟩ op
      = .ret (denyListVerdict rule op) := by
  cases whitelist with
  | true =>
    have := verifyWhitelistLoop_matched Match op rule [] h
    simpa [patchinator.verifyOperation, patchinator.verifyWhitelist,
      allowListVerdict_eq_denyListVerdict] using this
  | false =>
    have := verifyBlacklistLoop_matched Match op rule [] h
    cases hd : denyListVerdict rule op <;>
      simpa [patchinator.verifyOperation, patchinator.verifyBlacklist, hd,
        verifyBlacklistLoop] using this

theorem not_allowed_ne_kind_message (path kind : String) :
    path ++ " is not allowed" ≠ kind ++ " is not in the list of acceptable operations" := by
  intro h
  have h2 := congrArg (fun s : String => s.data.getLast?) h
  have hA : (" is not allowed" : String).data.getLast? = some 'd' := rfl
  have hB : (" is not in the list of acceptable operations" : String).data.getLast?
      = some 's' := rfl
  simp only [String.data_append, List.getLast?_append, hA, hB, Option.or_some] at h2
  exact absurd (Option.some.inj h2) (by decide)

theorem not_whitelisted_ne_kind_message (path kind : String) :
    path ++ " is not whitelisted"
      ≠ kind ++ " is not in the list of acceptable operations" := by
  intro h
  have h2 := congrArg (fun s : String => s.data.getLast?) h
  have hA : (" is not whitelisted" : String).data.getLast? = some 'd' := rfl
  have hB : (" is not in the list of acceptable operations" : String).data.getLast?
      = some 's' := rfl
  simp only [String.data_append, List.getLast?_append, hA, hB, Option.or_some] at h2
  exact absurd (Option.some.inj h2) (by decide)

theorem not_allowed_ne_not_whitelisted (path : String) :
    path ++ " is not allowed" ≠ path ++ " is not whitelisted" := by
  intro h
  have h2 := congrArg String.data h
  simp only [String.data_append] at h2
  exact absurd (List.append_cancel_left h2) (by decide)

/-! Lemmas on the model of the pattern language. -/

theorem atomOf_literal (c : Char) (h : c ∉ metaChars) : atomOf c = some (.lit c) := by
  have h1 : c ≠ '.' := fun e => h (by rw [e]; decide)
  have h2 : metaChars.contains c = false := by simpa using h
  simp [atomOf, h1, h]

theorem itemOf_literal (c : Char) (h : c ∉ metaChars) :
    itemOf c = some (.one (.lit c)) := by
  have h1 : c ≠ '^' := fun e => h (by rw [e]; decide)
  have h2 : c ≠ '$' := fun e => h (by rw [e]; decide)
  simp [itemOf, h1, h2, atomOf_literal c h]

/-- A pattern without metacharacters compiles to its characters. -/
theorem parseItems_literal (whole : String) (p : List Char) (h : ∀ c ∈ p, c ∉ metaChars) :
    parseItems whole false p = .ok (p.map (fun c => Item.one (.lit c))) := by
  induction p with
  | nil => rfl
  | cons c rest ih =>
    have hc := h c (List.mem_cons_self _ _)
    have hrest : ∀ d ∈ rest, d ∉ metaChars := fun d hd => h d (List.mem_cons_of_mem _ hd)
    have h1 : c ≠ '*' := fun e => hc (by rw [e]; decide)
    have h2 : rest.head? ≠ some '*' := by
      intro e
      cases rest with
      | nil => simp at e
      | cons d rest' =>
        simp at e
        exact hrest d (List.mem_cons_self _ _) (by rw [e]; decide)
    simp [parseItems, h1, h2, itemOf_literal c hc, ih hrest]

/-- Literal items followed by items that match everywhere: the match succeeds
exactly on the texts that begin with the literal characters. -/
theorem matchHere_literal (p : List Char) (rest : Regexp)
    (hrest : ∀ b t, matchHere rest b t = true) (b : Bool) (s : List Char) :
    matchHere (p.map (fun c => Item.one (.lit c)) ++ rest) b s = p.isPrefixOf s := by
  induction p generalizing b s with
  | nil => simp [hrest]
  | cons c p ih =>
    cases s with
    | nil => simp [matchHere]
    | cons d s =>
      simp [matchHere, Atom.accepts, ih, List.isPrefixOf]
      rfl

theorem matchHere_star_dot (b : Bool) (t : List Char) :
    matchHere [Item.star Atom.dot] b t = true := by
  cases t <;> simp [matchHere, starLoop]

theorem matchLater_bol (items : Regexp) (s : List Char) :
    matchLater (Item.bol :: items) s = false := by
  induction s with
  | nil => rfl
  | cons c s ih => simp [matchLater, matchHere, ih]

/-- Unanchored matching of literal items is containment. -/
theorem matchLater_literal (p : List Char) (s : List Char) :
    (matchHere (p.map (fun c => Item.one (.lit c))) false s
        || matchLater (p.map (fun c => Item.one (.lit c))) s) = true
      ↔ p <:+: s := by
  have hm : ∀ b t, matchHere (p.map (fun c => Item.one (.lit c))) b t = p.isPrefixOf t := by
    intro b t
    have := matchHere_literal p [] (fun _ _ => rfl) b t
    simpa using this
  induction s with
  | nil => simp [hm, matchLater]
  | cons c s ih =>
    have e : matchLater (p.map (fun c => Item.one (.lit c))) (c :: s)
        = (matchHere (p.map (fun c => Item.one (.lit c))) false s
          || matchLater (p.map (fun c => Item.one (.lit c))) s) := rfl
    rw [e, List.infix_cons_iff, Bool.or_eq_true]
    exact or_congr (by rw [hm]; simp) ih

/-- Unanchored matching of the compiled `^/a/.*` is: the text begins with `/a/`. -/
theorem modelMatch_anchored (text : String) :
    modelMatch [.bol, .one (.lit '/'), .one (.lit 'a'), .one (.lit '/'), .star .dot] text
      = ['/', 'a', '/'].isPrefixOf text.data := by
  have h2 : matchHere [.bol, .one (.lit '/'), .one (.lit 'a'), .one (.lit '/'), .star .dot]
      true text.data = ['/', 'a', '/'].isPrefixOf text.data := by
    rw [← matchHere_literal ['/', 'a', '/'] [Item.star Atom.dot] matchHere_star_dot
      true text.data]
    simp [matchHere]
  simp [modelMatch, matchLater_bol, h2]

/-- The result of `NewPatchinator` on a single rule whose pattern compiles. -/
theorem NewPatchinator_single (Compile : String → Except String R) (rule : PatchRule R V)
    (rex : R) (h : Compile rule.Path = .ok rex) :
    NewPatchinator Compile [rule]
      = (some ⟨[{ rule with rex := some rex }], false⟩, none) := by
  simp [NewPatchinator, compileRules, h]

/-- After a successful compile loop every rule of the slice has its matcher. -/
theorem compileRules_rex (Compile : String → Except String R) (rules : PatchRules R V)
    (h : (compileRules Compile rules).2 = none) :
    ∀ rule ∈ (compileRules Compile rules).1, rule.rex ≠ none := by
  induction rules with
  | nil => simp [compileRules]
  | cons a rules ih =>
    cases hc : Compile a.Path with
    | error e => simp [compileRules, hc] at h
    | ok rex =>
      simp only [compileRules, hc] at h ⊢
      intro rule hr
      rcases List.mem_cons.1 hr with rfl | hr
      · simp
      · exact ih h rule hr

/-- The rules of a Patchinator returned by `NewPatchinator` have their matchers. -/
theorem NewPatchinator_rex (Compile : String → Except String R) (rules : PatchRules R V)
    (p : patchinator R V) (h : NewPatchinator Compile rules = (some p, none)) :
    ∀ rule ∈ p.rules, rule.rex ≠ none := by
  unfold NewPatchinator at h
  cases hc : (compileRules Compile rules).2 with
  | some e => simp [hc] at h
  | none =>
    simp [hc] at h
    rw [← h]
    exact compileRules_rex Compile rules hc

theorem not_matches_of_misses (Match : R → String → Bool) (rule : PatchRule R V)
    (path : String) (h : rule.Misses Match path = true) :
    rule.Matches Match path = false := by
  cases hrex : rule.rex with
  | none => simp [PatchRule.Matches, hrex]
  | some rex =>
    simp [PatchRule.Misses, hrex] at h
    simp [PatchRule.Matches, hrex, h]

theorem denyListVerdict_eq_none_iff (rule : PatchRule R V) (op : Op V) :
    denyListVerdict rule op = none ↔ rule.Accepts op = true := by
  constructor
  · intro h
    unfold denyListVerdict at h
    unfold PatchRule.Accepts
    by_cases hk : op.Op ∈ rule.Op
    · cases hs : rule.ShouldAllow with
      | none => cases hd : rule.Deny <;> simp [hk, hs, hd] at h ⊢
      | some f =>
        cases hd : rule.Deny <;> cases hf : f op.Path op.Value <;>
          simp [hk, hs, hd, hf] at h ⊢
    · simp [hk] at h
  · exact denyListVerdict_of_accepts rule op

/-- With compiled matchers, deny-list mode accepts exactly when every rule that
matches the path accepts the operation. -/
theorem verifyBlacklistLoop_eq_nil_iff (Match : R → String → Bool) (op : Op V)
    (rules : PatchRules R V) (hc : ∀ rule ∈ rules, rule.rex ≠ none) :
    verifyBlacklistLoop Match op rules = .ret none
      ↔ ∀ rule ∈ rules, rule.Matches Match op.Path = true → rule.Accepts op = true := by
  induction rules with
  | nil => simp [verifyBlacklistLoop]
  | cons a rules ih =>
    have ih2 := ih (fun r hr => hc r (List.mem_cons_of_mem _ hr))
    rcases matches_or_misses Match a op.Path (hc a (List.mem_cons_self _ _)) with hm | hm
    · rw [verifyBlacklistLoop_matched Match op a rules hm]
      cases hd : denyListVerdict a op with
      | none =>
        have hacc := (denyListVerdict_eq_none_iff a op).1 hd
        simp [ih2, hm, hacc]
      | some e =>
        have hacc : a.Accepts op ≠ true := fun h' => by
          rw [(denyListVerdict_eq_none_iff a op).2 h'] at hd
          exact absurd hd (by simp)
        simp [hm, hacc]
    · rw [verifyBlacklistLoop_cons_miss Match op a rules hm, ih2]
      simp [not_matches_of_misses Match a op.Path hm]

/-- An error of deny-list mode is the verdict of the first rule that matches the
path and does not accept the operation. -/
theorem verifyBlacklistLoop_error_origin (Match : R → String → Bool) (op : Op V)
    (rules : PatchRules R V) (err : String)
    (h : verifyBlacklistLoop Match op rules = .ret (some err)) :
    ∃ pre r post, rules = pre ++ r :: post ∧
      (∀ x ∈ pre, x.Matches Match op.Path = true → x.Accepts op = true) ∧
      r.Matches Match op.Path = true ∧ denyListVerdict r op = some err := by
  induction rules with
  | nil => simp [verifyBlacklistLoop] at h
  | cons a rules ih =>
    by_cases hrex : a.rex = none
    · rw [(verifyLoop_cons_nil_rex Match op a rules hrex).2] at h
      exact absurd h (by simp)
    · rcases matches_or_misses Match a op.Path hrex with hm | hm
      · rw [verifyBlacklistLoop_matched Match op a rules hm] at h
        cases hd : denyListVerdict a op with
        | none =>
          rw [hd] at h
          obtain ⟨pre, r, post, hr, hpre, hrm, hrv⟩ := ih h
          refine ⟨a :: pre, r, post, by simp [hr], ?_, hrm, hrv⟩
          intro x hx hxm
          rcases List.mem_cons.1 hx with rfl | hx
          · exact (denyListVerdict_eq_none_iff x op).1 hd
          · exact hpre x hx hxm
        | some e =>
          rw [hd] at h
          have he : e = err := Option.some.inj (Exec.ret.inj h)
          subst he
          exact ⟨[], a, rules, rfl, by simp, hm, hd⟩
      · rw [verifyBlacklistLoop_cons_miss Match op a rules hm] at h
        obtain ⟨pre, r, post, hr, hpre, hrm, hrv⟩ := ih h
        refine ⟨a :: pre, r, post, by simp [hr], ?_, hrm, hrv⟩
        intro x hx hxm
        rcases List.mem_cons.1 hx with rfl | hx
        · rw [not_matches_of_misses Match x op.Path hm] at hxm
          exact absurd hxm (by simp)
        · exact hpre x hx hxm

/-- Deny-list mode passes over compiled rules that miss the path or accept the
operation. -/
theorem verifyBlacklistLoop_skip_passing (Match : R → String → Bool) (op : Op V)
    (pre rest : PatchRules R V) (hc : ∀ x ∈ pre, x.rex ≠ none)
    (h : ∀ x ∈ pre, x.Matches Match op.Path = true → x.Accepts op = true) :
    verifyBlacklistLoop Match op (pre ++ rest) = verifyBlacklistLoop Match op rest := by
  induction pre with
  | nil => rfl
  | cons a pre ih =>
    have ih2 := ih (fun r hr => hc r (List.mem_cons_of_mem _ hr))
      (fun r hr => h r (List.mem_cons_of_mem _ hr))
    rcases matches_or_misses Match a op.Path (hc a (List.mem_cons_self _ _)) with hm | hm
    · have hacc := h a (List.mem_cons_self _ _) hm
      rw [List.cons_append, verifyBlacklistLoop_matched Match op a _ hm,
        denyListVerdict_of_accepts a op hacc]
      exact ih2
    · rw [List.cons_append, verifyBlacklistLoop_cons_miss Match op a _ hm]
      exact ih2

/-- On a path some rule matches, acceptance in deny-list mode gives acceptance
in allow-list mode. -/
theorem whitelist_nil_of_blacklist_nil (Match : R → String → Bool) (op : Op V)
    (rules : PatchRules R V) (h : verifyBlacklistLoop Match op rules = .ret none)
    (hex : ∃ rule ∈ rules, rule.Matches Match op.Path = true) :
    verifyWhitelistLoop Match op rules = .ret none := by
  induction rules with
  | nil => simp at hex
  | cons a rules ih =>
    by_cases hrex : a.rex = none
    · rw [(verifyLoop_cons_nil_rex Match op a rules hrex).2] at h
      exact absurd h (by simp)
    · rcases matches_or_misses Match a op.Path hrex with hm | hm
      · rw [verifyBlacklistLoop_matched Match op a rules hm] at h
        rw [verifyWhitelistLoop_matched Match op a rules hm,
          allowListVerdict_eq_denyListVerdict]
        cases hd : denyListVerdict a op with
        | none => rfl
        | some e =>
          rw [hd] at h
          exact absurd h (by simp)
      · rw [verifyBlacklistLoop_cons_miss Match op a rules hm] at h
        rw [verifyWhitelistLoop_cons_miss Match op a rules hm]
        apply ih h
        obtain ⟨r, hr, hrm⟩ := hex
        rcases List.mem_cons.1 hr with rfl | hr
        · rw [not_matches_of_misses Match r op.Path hm] at hrm
          exact absurd hrm (by simp)
        · exact ⟨r, hr, hrm⟩

end Lemmas

section Claims

variable {R V : Type}

/-- C1 (default-posture inversion). If every rule of the list has a compiled
pattern that does not match the operation's path, then deny-list mode
(`whitelist = false`, `verifyBlacklist`) returns nil and allow-list mode
(`whitelist = true`, `verifyWhitelist`) returns the error
`<path> is not whitelisted`; both hold for the empty rule list. -/
theorem default_posture_inversion (Match : R → String → Bool) (rules : PatchRules R V)
    (op : Op V) (h : ∀ rule ∈ rules, rule.Misses Match op.Path = true) :
    (patchinator.verifyOperation Match ⟨rules, false⟩ op = .ret none ∧
      patchinator.verifyBlacklist Match ⟨rules, false⟩ op = .ret none) ∧
    (patchinator.verifyOperation Match ⟨rules, true⟩ op
        = .ret (some (op.Path ++ " is not whitelisted")) ∧
      patchinator.verifyWhitelist Match ⟨rules, true⟩ op
        = .ret (some (op.Path ++ " is not whitelisted"))) ∧
    (patchinator.verifyOperation Match ⟨[], false⟩ op = .ret none ∧
      patchinator.verifyOperation Match ⟨[], true⟩ op
        = .ret (some (op.Path ++ " is not whitelisted"))) := by
  have hb := verifyBlacklistLoop_all_miss Match op rules h
  have hw := verifyWhitelistLoop_all_miss Match op rules h
  refine ⟨⟨?_, ?_⟩, ⟨?_, ?_⟩, ?_, ?_⟩
  · simpa [patchinator.verifyOperation, patchinator.verifyBlacklist] using hb
  · simpa [patchinator.verifyBlacklist] using hb
  · simpa [patchinator.verifyOperation, patchinator.verifyWhitelist] using hw
  · simpa [patchinator.verifyWhitelist] using hw
  · rfl
  · rfl

/-- Witness for C1: the policy of `TestPatchinator_Run_Whitelist_PathNotInWhitelist`
(one rule for `/a/c`) and the operation on `/a/b`. -/
theorem default_posture_inversion_witness :
    (∀ rule ∈ [Example.rule ["replace", "add"] "/a/c" false none],
        rule.Misses literalMatch Example.replaceAB.Path = true) ∧
    patchinator.verifyOperation literalMatch
        ⟨[Example.rule ["replace", "add"] "/a/c" false none], false⟩ Example.replaceAB
      = .ret none ∧
    patchinator.verifyOperation literalMatch
        ⟨[Example.rule ["replace", "add"] "/a/c" false none], true⟩ Example.replaceAB
      = .ret (some "/a/b is not whitelisted") :=
  have h := default_posture_inversion literalMatch
    [Example.rule ["replace", "add"] "/a/c" false none] Example.replaceAB (by decide)
  ⟨by decide, h.1.1, h.2.1.1⟩

/-- C2, the code at the failing input. In deny-list mode the first rule that
matches `/a/b` (pattern `/a`) accepts the `replace`, so first-match-wins asks for
acceptance, as the policy of that rule alone gives; yet `verifyBlacklist`, which
has no `return nil` after a rule passes, goes on to the later rule for `/a/b` and
returns its rejection. -/
theorem deny_list_first_match_counterexample :
    (Example.rule ["replace"] "/a" false none).Matches literalMatch
        Example.replaceAB.Path = true ∧
    (Example.rule ["replace"] "/a" false none).Accepts Example.replaceAB = true ∧
    patchinator.verifyOperation literalMatch
        ⟨[Example.rule ["replace"] "/a" false none,
          Example.rule ["replace"] "/a/b" true none], false⟩ Example.replaceAB
      = .ret (some "/a/b is not allowed") ∧
    patchinator.verifyOperation literalMatch
        ⟨[Example.rule ["replace"] "/a" false none], false⟩ Example.replaceAB
      = .ret none := by
  decide

/-- C3 (first-match-wins in allow-list mode). With `whitelist = true`, the
result of verifying an operation is the verdict of the first rule in declared
order whose pattern matches the path: kind error, `<path> is not allowed`, or
nil. It is the result for the policy made of that rule alone, and it is the same
whatever rules follow that rule. -/
theorem allow_list_first_match_wins (Match : R → String → Bool)
    (pre post post' : PatchRules R V) (r1 : PatchRule R V) (op : Op V)
    (hpre : ∀ rule ∈ pre, rule.Misses Match op.Path = true)
    (hmatch : r1.Matches Match op.Path = true) :
    patchinator.verifyOperation Match ⟨pre ++ r1 :: post, true⟩ op
      = .ret (allowListVerdict r1 op) ∧
    patchinator.verifyOperation Match ⟨pre ++ r1 :: post, true⟩ op
      = patchinator.verifyOperation Match ⟨[r1], true⟩ op ∧
    patchinator.verifyOperation Match ⟨pre ++ r1 :: post, true⟩ op
      = patchinator.verifyOperation Match ⟨pre ++ r1 :: post', true⟩ op := by
  have key : ∀ rest : PatchRules R V,
      patchinator.verifyOperation Match ⟨pre ++ r1 :: rest, true⟩ op
        = .ret (allowListVerdict r1 op) := by
    intro rest
    have := verifyWhitelistLoop_matched Match op r1 rest hmatch
    simpa [patchinator.verifyOperation, patchinator.verifyWhitelist,
      verifyWhitelistLoop_skip Match op pre _ hpre] using this
  have single : patchinator.verifyOperation Match ⟨[r1], true⟩ op
      = .ret (allowListVerdict r1 op) := by
    have := verifyWhitelistLoop_matched Match op r1 [] hmatch
    simpa [patchinator.verifyOperation, patchinator.verifyWhitelist] using this
  exact ⟨key post, by rw [key post, single], by rw [key post, key post']⟩

/-- Witness for C3: the accepting rule for `/a` comes first; a denying rule for
`/a/b` after it, or none, makes no difference. -/
theorem allow_list_first_match_wins_witness :
    (∀ rule ∈ [Example.rule ["add"] "/x" true none],
        rule.Misses literalMatch Example.replaceAB.Path = true) ∧
    patchinator.verifyOperation literalMatch
        ⟨[Example.rule ["add"] "/x" true none] ++ Example.rule ["replace"] "/a" false none ::
          [Example.rule ["replace"] "/a/b" true none], true⟩ Example.replaceAB
      = .ret none :=
  ⟨by decide,
    (allow_list_first_match_wins literalMatch [Example.rule ["add"] "/x" true none]
      [Example.rule ["replace"] "/a/b" true none] []
      (Example.rule ["replace"] "/a" false none)
      Example.replaceAB (by decide) (by decide)).1.trans (by decide)⟩

/-- C4 (kind-set precedence). In both modes, if the first rule whose pattern
matches the operation's path has an `Op` list without the operation's kind, the
operation is rejected with `<kind> is not in the list of acceptable operations`,
whatever the rule's `Deny` flag and `ShouldAllow` predicate are. -/
theorem kind_set_precedence (Match : R → String → Bool)
    (pre post : PatchRules R V) (r1 : PatchRule R V) (op : Op V) (whitelist : Bool)
    (hpre : ∀ rule ∈ pre, rule.Misses Match op.Path = true)
    (hmatch : r1.Matches Match op.Path = true) (hkind : op.Op ∉ r1.Op) :
    patchinator.verifyOperation Match ⟨pre ++ r1 :: post, whitelist⟩ op
      = .ret (some (op.Op ++ " is not in the list of acceptable operations")) := by
  cases whitelist with
  | true =>
    have := verifyWhitelistLoop_matched Match op r1 post hmatch
    simpa [patchinator.verifyOperation, patchinator.verifyWhitelist,
      verifyWhitelistLoop_skip Match op pre _ hpre, allowListVerdict, hkind] using this
  | false =>
    have := verifyBlacklistLoop_matched Match op r1 post hmatch
    simpa [patchinator.verifyOperation, patchinator.verifyBlacklist,
      verifyBlacklistLoop_skip Match op pre _ hpre, denyListVerdict, hkind] using this

/-- Witness for C4: the policy of `TestPatchinator_IsWhitelist_OpMismatch` (only
`add` on `/a/b`), here with the `Deny` flag set and a refusing predicate, in
allow-list mode. -/
theorem kind_set_precedence_witness :
    Example.replaceAB.Op ∉
      (Example.rule ["add"] "/a/b" true (some (fun _ _ => false))).Op ∧
    patchinator.verifyOperation literalMatch
        ⟨[] ++ Example.rule ["add"] "/a/b" true (some (fun _ _ => false)) :: [], true⟩
        Example.replaceAB
      = .ret (some "replace is not in the list of acceptable operations") :=
  ⟨by decide,
    kind_set_precedence literalMatch [] []
      (Example.rule ["add"] "/a/b" true (some (fun _ _ => false)))
      Example.replaceAB true (by decide) (by decide) (by decide)⟩

/-- C5 (deny always rejects). In both modes, if the first rule whose pattern
matches the operation's path has `Deny = true` and an `Op` list with the
operation's kind, the operation is rejected with `<path> is not allowed`, whether
`ShouldAllow` is nil, returns true or returns false; `Run` on a batch made of
that operation returns this error. -/
theorem deny_always_rejects (Unmarshal : Bytes → Except String (Patch V))
    (Match : R → String → Bool)
    (pre post : PatchRules R V) (r1 : PatchRule R V) (op : Op V) (whitelist : Bool)
    (bytes : Bytes)
    (hpre : ∀ rule ∈ pre, rule.Misses Match op.Path = true)
    (hmatch : r1.Matches Match op.Path = true) (hkind : op.Op ∈ r1.Op)
    (hdeny : r1.Deny = true) (hdec : Unmarshal bytes = .ok [op]) :
    patchinator.verifyOperation Match ⟨pre ++ r1 :: post, whitelist⟩ op
      = .ret (some (op.Path ++ " is not allowed")) ∧
    patchinator.Run Unmarshal Match ⟨pre ++ r1 :: post, whitelist⟩ bytes
      = .ret (some (op.Path ++ " is not allowed")) := by
  have hv : patchinator.verifyOperation Match ⟨pre ++ r1 :: post, whitelist⟩ op
      = .ret (some (op.Path ++ " is not allowed")) := by
    cases whitelist with
    | true =>
      have := verifyWhitelistLoop_matched Match op r1 post hmatch
      cases hs : r1.ShouldAllow with
      | none =>
        simpa [patchinator.verifyOperation, patchinator.verifyWhitelist,
          verifyWhitelistLoop_skip Match op pre _ hpre, allowListVerdict, hkind, hdeny, hs]
          using this
      | some f =>
        cases hf : f op.Path op.Value <;>
        simpa [patchinator.verifyOperation, patchinator.verifyWhitelist,
          verifyWhitelistLoop_skip Match op pre _ hpre, allowListVerdict, hkind, hdeny, hs, hf]
          using this
    | false =>
      have := verifyBlacklistLoop_matched Match op r1 post hmatch
      simpa [patchinator.verifyOperation, patchinator.verifyBlacklist,
        verifyBlacklistLoop_skip Match op pre _ hpre, denyListVerdict, hkind, hdeny]
        using this
  refine ⟨hv, ?_⟩
  simp [patchinator.Run, hdec, runLoop, hv]

/-- Witness for C5: the policy of `TestPatchinator_Run_Deny`, with a predicate
that would allow, in deny-list mode. -/
theorem deny_always_rejects_witness :
    Example.replaceAB.Op ∈
      (Example.rule ["replace", "add"] "/a/b" true (some (fun _ _ => true))).Op ∧
    patchinator.Run (fun _ => .ok [Example.replaceAB]) literalMatch
        ⟨[] ++ Example.rule ["replace", "add"] "/a/b" true (some (fun _ _ => true)) :: [],
          false⟩ []
      = .ret (some "/a/b is not allowed") :=
  ⟨by decide,
    (deny_always_rejects (fun _ => .ok [Example.replaceAB]) literalMatch [] []
      (Example.rule ["replace", "add"] "/a/b" true (some (fun _ _ => true)))
      Example.replaceAB false [] (by decide) (by decide) (by decide) rfl rfl).2⟩

/-- C6 (admission predicate). In both modes, for an operation whose path is
matched by exactly one rule of the policy (every rule before and after it misses
the path), where that rule's `Op` list has the operation's kind, `Deny` is false
and `ShouldAllow` is the function `f`: the operation is accepted if and only if
`f op.Path op.Value` is true, and when it is false the error is
`<path> is not allowed`. -/
theorem admission_predicate (Match : R → String → Bool)
    (pre post : PatchRules R V) (r1 : PatchRule R V) (op : Op V) (whitelist : Bool)
    (f : String → V → Bool)
    (hpre : ∀ rule ∈ pre, rule.Misses Match op.Path = true)
    (hpost : ∀ rule ∈ post, rule.Misses Match op.Path = true)
    (hmatch : r1.Matches Match op.Path = true) (hkind : op.Op ∈ r1.Op)
    (hdeny : r1.Deny = false) (hf : r1.ShouldAllow = some f) :
    (patchinator.verifyOperation Match ⟨pre ++ r1 :: post, whitelist⟩ op = .ret none
      ↔ f op.Path op.Value = true) ∧
    (f op.Path op.Value = false →
      patchinator.verifyOperation Match ⟨pre ++ r1 :: post, whitelist⟩ op
        = .ret (some (op.Path ++ " is not allowed"))) := by
  have hv : patchinator.verifyOperation Match ⟨pre ++ r1 :: post, whitelist⟩ op
      = if f op.Path op.Value = true then .ret none
        else .ret (some (op.Path ++ " is not allowed")) := by
    cases whitelist with
    | true =>
      have := verifyWhitelistLoop_matched Match op r1 post hmatch
      cases hfv : f op.Path op.Value <;>
      simpa [patchinator.verifyOperation, patchinator.verifyWhitelist,
        verifyWhitelistLoop_skip Match op pre _ hpre, allowListVerdict, hkind, hdeny, hf, hfv]
        using this
    | false =>
      have := verifyBlacklistLoop_matched Match op r1 post hmatch
      cases hfv : f op.Path op.Value <;>
      simpa [patchinator.verifyOperation, patchinator.verifyBlacklist,
        verifyBlacklistLoop_skip Match op pre _ hpre, denyListVerdict, hkind, hdeny, hf, hfv,
        verifyBlacklistLoop_all_miss Match op post hpost]
        using this
  rw [hv]
  cases hfv : f op.Path op.Value <;> simp

/-- Witness for C6: a predicate that admits exactly the value `"c"`, between two
rules for other paths, in deny-list mode. -/
theorem admission_predicate_witness :
    (∀ rule ∈ [Example.rule ["add"] "/x" true none],
        rule.Misses literalMatch Example.replaceAB.Path = true) ∧
    (patchinator.verifyOperation literalMatch
        ⟨[Example.rule ["add"] "/x" true none] ++
          Example.rule ["replace"] "/a/b" false (some (fun _ v => v == "c")) ::
          [Example.rule [] "/a/c" false none], false⟩ Example.replaceAB = .ret none
      ↔ (fun (_ : String) (v : String) => v == "c")
          Example.replaceAB.Path Example.replaceAB.Value = true) :=
  ⟨by decide,
    (admission_predicate literalMatch [Example.rule ["add"] "/x" true none]
      [Example.rule [] "/a/c" false none]
      (Example.rule ["replace"] "/a/b" false (some (fun _ v => v == "c")))
      Example.replaceAB false (fun _ v => v == "c")
      (by decide) (by decide) (by decide) (by decide) rfl rfl).1⟩

/-- C7 (batch fail-fast). For a batch that decodes to `patch`, in either mode:
`Run` returns nil if and only if every operation of the batch is accepted by
`verifyOperation`; when an operation is rejected and all operations before it are
accepted, `Run` returns exactly that operation's error, also for any other batch
that agrees with this one up to that operation; every error `Run` returns after
decoding arises in this way; and with all matchers compiled `Run` returns. -/
theorem run_fail_fast (Unmarshal : Bytes → Except String (Patch V))
    (Match : R → String → Bool) (p : patchinator R V) (bytes : Bytes) (patch : Patch V)
    (hdec : Unmarshal bytes = .ok patch) :
    (p.Run Unmarshal Match bytes = .ret none
      ↔ ∀ op ∈ patch, p.verifyOperation Match op = .ret none) ∧
    (∀ pre op post err, patch = pre ++ op :: post →
      (∀ o ∈ pre, p.verifyOperation Match o = .ret none) →
      p.verifyOperation Match op = .ret (some err) →
      p.Run Unmarshal Match bytes = .ret (some err) ∧
      ∀ bytes' post', Unmarshal bytes' = .ok (pre ++ op :: post') →
        p.Run Unmarshal Match bytes' = p.Run Unmarshal Match bytes) ∧
    (∀ err, p.Run Unmarshal Match bytes = .ret (some err) →
      ∃ pre op post, patch = pre ++ op :: post ∧
        (∀ o ∈ pre, p.verifyOperation Match o = .ret none) ∧
        p.verifyOperation Match op = .ret (some err)) ∧
    ((∀ rule ∈ p.rules, rule.rex ≠ none) → ∃ e, p.Run Unmarshal Match bytes = .ret e) := by
  have hrun : p.Run Unmarshal Match bytes = runLoop Match p patch := by
    simp [patchinator.Run, hdec]
  refine ⟨?_, ?_, ?_, ?_⟩
  · rw [hrun]
    exact runLoop_eq_nil_iff Match p patch
  · intro pre op post err hp hpre hop
    have h1 : p.Run Unmarshal Match bytes = .ret (some err) := by
      rw [hrun, hp]
      exact runLoop_first_rejection Match p pre post op err hpre hop
    refine ⟨h1, ?_⟩
    intro bytes' post' hdec'
    rw [h1]
    simp only [patchinator.Run, hdec']
    exact runLoop_first_rejection Match p pre post' op err hpre hop
  · intro err h
    rw [hrun] at h
    exact runLoop_error_origin Match p patch err h
  · intro hc
    rw [hrun]
    exact runLoop_returns Match p patch hc

/-- Witness for C7: the batch accepted, rejected, accepted under the policy that
lets `replace` touch `/a/b`; `Run` returns the error of the second operation. -/
theorem run_fail_fast_witness :
    patchinator.Run
        (fun _ => .ok [Example.replaceAB, ⟨"add", "/a/b", "d"⟩, Example.replaceAB])
        literalMatch ⟨[Example.rule ["replace"] "/a/b" false none], false⟩ []
      = .ret (some "add is not in the list of acceptable operations") :=
  ((run_fail_fast
      (fun _ => .ok [Example.replaceAB, ⟨"add", "/a/b", "d"⟩, Example.replaceAB])
      literalMatch ⟨[Example.rule ["replace"] "/a/b" false none], false⟩ []
      [Example.replaceAB, ⟨"add", "/a/b", "d"⟩, Example.replaceAB] rfl).2.1
    [Example.replaceAB] ⟨"add", "/a/b", "d"⟩ [Example.replaceAB]
    "add is not in the list of acceptable operations" rfl (by decide) (by decide)).1

/-- C8 (`Apply` gates application on validation). If `Run` on the batch returns
the error `e`, then `Apply` returns `(nil, e)`, whatever the decoder and the
applier of the JSON Patch library are (they are not consulted); if `Run` returns
nil, `Apply` returns what the library produces for the batch and the document:
`(nil, err)` when decoding fails, the applier's pair otherwise. -/
theorem apply_gated_by_run {P : Type} (Unmarshal : Bytes → Except String (Patch V))
    (Match : R → String → Bool) (DecodePatch : Bytes → Except String P)
    (PatcherApply : P → Bytes → Option Bytes × GoError)
    (p : patchinator R V) (patch original : Bytes) :
    (∀ e, p.Run Unmarshal Match patch = .ret (some e) →
      p.Apply Unmarshal Match DecodePatch PatcherApply patch original
        = .ret (none, some e)) ∧
    (p.Run Unmarshal Match patch = .ret none →
      p.Apply Unmarshal Match DecodePatch PatcherApply patch original
        = .ret (match DecodePatch patch with
                | .error err => (none, some err)
                | .ok patcher => PatcherApply patcher original)) := by
  constructor
  · intro e h
    simp [patchinator.Apply, h]
  · intro h
    cases hd : DecodePatch patch <;> simp [patchinator.Apply, h, hd]

/-- Witness for C8: under the denying policy of `TestPatchinator_Run_Deny` the
rejection is returned and no document, though the applier used here would return
the document. -/
theorem apply_gated_by_run_witness :
    patchinator.Run (fun _ => .ok [Example.replaceAB]) literalMatch
        ⟨[Example.rule ["replace", "add"] "/a/b" true none], false⟩ []
      = .ret (some "/a/b is not allowed") ∧
    patchinator.Apply (fun _ => .ok [Example.replaceAB]) literalMatch
        (fun _ => (.ok () : Except String Unit)) (fun _ original => (some original, none))
        ⟨[Example.rule ["replace", "add"] "/a/b" true none], false⟩ [] [1, 2]
      = .ret (none, some "/a/b is not allowed") :=
  ⟨by decide,
    (apply_gated_by_run (fun _ => .ok [Example.replaceAB]) literalMatch
      (fun _ => (.ok () : Except String Unit)) (fun _ original => (some original, none))
      ⟨[Example.rule ["replace", "add"] "/a/b" true none], false⟩ [] [1, 2]).1
      "/a/b is not allowed" (by decide)⟩

/-- C9 (validation is order-independent). If two batches decode to operation
lists that are permutations of each other, `Run` accepts one if and only if it
accepts the other, in either mode. -/
theorem run_order_independent (Unmarshal : Bytes → Except String (Patch V))
    (Match : R → String → Bool) (p : patchinator R V) (bytes bytes' : Bytes)
    (patch patch' : Patch V)
    (hdec : Unmarshal bytes = .ok patch) (hdec' : Unmarshal bytes' = .ok patch')
    (hperm : patch.Perm patch') :
    p.Run Unmarshal Match bytes = .ret none ↔ p.Run Unmarshal Match bytes' = .ret none := by
  have h1 : p.Run Unmarshal Match bytes = runLoop Match p patch := by
    simp [patchinator.Run, hdec]
  have h2 : p.Run Unmarshal Match bytes' = runLoop Match p patch' := by
    simp [patchinator.Run, hdec']
  rw [h1, h2, runLoop_eq_nil_iff, runLoop_eq_nil_iff]
  constructor
  · intro h op hop
    exact h op (hperm.mem_iff.2 hop)
  · intro h op hop
    exact h op (hperm.mem_iff.1 hop)

/-- Witness for C9: a two-operation batch and its reversal; both are rejected,
since the operation on `/x/y` is not whitelisted. -/
theorem run_order_independent_witness :
    List.Perm [Example.addXY, Example.replaceAB] [Example.replaceAB, Example.addXY] ∧
    (patchinator.Run
        (fun b => if b = [] then .ok [Example.addXY, Example.replaceAB]
          else .ok [Example.replaceAB, Example.addXY])
        literalMatch ⟨[Example.rule ["replace"] "/a/b" false none], true⟩ [] = .ret none
      ↔ patchinator.Run
        (fun b => if b = [] then .ok [Example.addXY, Example.replaceAB]
          else .ok [Example.replaceAB, Example.addXY])
        literalMatch ⟨[Example.rule ["replace"] "/a/b" false none], true⟩ [0] = .ret none) :=
  ⟨List.Perm.swap _ _ _,
    run_order_independent
      (fun b => if b = [] then .ok [Example.addXY, Example.replaceAB]
        else .ok [Example.replaceAB, Example.addXY])
      literalMatch ⟨[Example.rule ["replace"] "/a/b" false none], true⟩ [] [0]
      [Example.addXY, Example.replaceAB] [Example.replaceAB, Example.addXY]
      rfl rfl (List.Perm.swap _ _ _)⟩

/-- C10 (construction is all-or-nothing). `NewPatchinator` returns an error if
and only if the `Path` of some rule fails to compile, and then it returns no
Patchinator; the error is the compile error of the first rule whose pattern is
invalid; when every pattern compiles it returns, without error, a Patchinator
whose rules are the given rules in the given order, each with its compiled
matcher in `rex`. -/
theorem new_patchinator_all_or_nothing (Compile : String → Except String R)
    (rules : PatchRules R V) :
    ((NewPatchinator Compile rules).2 ≠ none
      ↔ ∃ rule ∈ rules, ∃ e, Compile rule.Path = .error e) ∧
    ((NewPatchinator Compile rules).2 ≠ none → (NewPatchinator Compile rules).1 = none) ∧
    (∀ pre rule post e, rules = pre ++ rule :: post →
      (∀ r ∈ pre, ∃ rex, Compile r.Path = .ok rex) →
      Compile rule.Path = .error e →
      NewPatchinator Compile rules = (none, some e)) ∧
    ((∀ r ∈ rules, ∃ rex, Compile r.Path = .ok rex) →
      ∃ p, NewPatchinator Compile rules = (some p, none) ∧
        List.Forall₂ (CompiledFrom Compile) rules p.rules) := by
  refine ⟨?_, ?_, ?_, ?_⟩
  · rw [← compileRules_error_iff]
    unfold NewPatchinator
    cases h : (compileRules Compile rules).2 <;> simp
  · unfold NewPatchinator
    cases h : (compileRules Compile rules).2 <;> simp
  · intro pre rule post e hr hpre herr
    have := compileRules_first_error Compile pre post rule e hpre herr
    rw [← hr] at this
    simp [NewPatchinator, this]
  · intro hall
    obtain ⟨h1, h2⟩ := compileRules_all_ok Compile rules hall
    exact ⟨⟨(compileRules Compile rules).1, false⟩, by simp [NewPatchinator, h1], h2⟩

/-- Witness for C10: the second and the third pattern are invalid; the error is
the one of the second, and no Patchinator is returned. -/
theorem new_patchinator_all_or_nothing_witness :
    NewPatchinator literalCompile
        [Example.rawRule ["replace"] "/a/b" false, Example.rawRule ["add"] "(" false,
          Example.rawRule [] "[" true]
      = (none, some "error parsing regexp: (") :=
  (new_patchinator_all_or_nothing literalCompile
      [Example.rawRule ["replace"] "/a/b" false, Example.rawRule ["add"] "(" false,
        Example.rawRule [] "[" true]).2.2.1
    [Example.rawRule ["replace"] "/a/b" false] (Example.rawRule ["add"] "(" false)
    [Example.rawRule [] "[" true] "error parsing regexp: (" rfl
    (by intro r hr; simp at hr; subst hr; exact ⟨"/a/b", rfl⟩) rfl

/-- C12, refuted as stated: under the policy of
`TestPatchinator_Run_WrongOperation` the `replace` of `/a/b` is rejected, in
both modes, with a message that does not contain the path `/a/b`. -/
theorem rejection_names_path_counterexample :
    patchinator.verifyOperation literalMatch
        ⟨[Example.rule ["add"] "/a/b" false none], false⟩ Example.replaceAB
      = .ret (some "replace is not in the list of acceptable operations") ∧
    patchinator.verifyOperation literalMatch
        ⟨[Example.rule ["add"] "/a/b" false none], true⟩ Example.replaceAB
      = .ret (some "replace is not in the list of acceptable operations") ∧
    ¬ (Example.replaceAB.Path.data
        <:+: "replace is not in the list of acceptable operations".data) := by
  decide

/-- C12 as amended. Whenever verifying an operation returns a rejection error, in
either mode, the message is one of three: the denied, predicate-denied and
not-whitelisted messages begin with the operation's path, hence contain it; the
kind-not-acceptable message begins with the operation's kind instead. -/
theorem rejection_names_path_or_kind (Match : R → String → Bool) (p : patchinator R V)
    (op : Op V) (err : String) (h : p.verifyOperation Match op = .ret (some err)) :
    (err = op.Op ++ " is not in the list of acceptable operations" ∧
      op.Op.data <:+: err.data) ∨
    ((err = op.Path ++ " is not allowed" ∨ err = op.Path ++ " is not whitelisted") ∧
      op.Path.data <:+: err.data) := by
  have hform : err = op.Op ++ " is not in the list of acceptable operations" ∨
      err = op.Path ++ " is not allowed" ∨ err = op.Path ++ " is not whitelisted" := by
    cases hw : p.whitelist with
    | true =>
      simp only [patchinator.verifyOperation, hw, patchinator.verifyWhitelist] at h
      exact verifyWhitelistLoop_error_form Match op p.rules err (by simpa using h)
    | false =>
      simp only [patchinator.verifyOperation, hw, patchinator.verifyBlacklist] at h
      rcases verifyBlacklistLoop_error_form Match op p.rules err (by simpa using h)
        with h1 | h1
      · exact Or.inl h1
      · exact Or.inr (Or.inl h1)
  rcases hform with h1 | h1 | h1
  · exact Or.inl ⟨h1, h1 ▸ infix_append_message _ _⟩
  · exact Or.inr ⟨Or.inl h1, h1 ▸ infix_append_message _ _⟩
  · exact Or.inr ⟨Or.inr h1, h1 ▸ infix_append_message _ _⟩

/-- Witness for amended C12: the not-whitelisted rejection of the operation on
`/x/y` contains `/x/y`. -/
theorem rejection_names_path_or_kind_witness :
    patchinator.verifyOperation literalMatch
        ⟨[Example.rule ["replace"] "/a/b" false none], true⟩ Example.addXY
      = .ret (some "/x/y is not whitelisted") ∧
    (("/x/y is not whitelisted" = Example.addXY.Op ++
          " is not in the list of acceptable operations" ∧
        Example.addXY.Op.data <:+: "/x/y is not whitelisted".data) ∨
      (("/x/y is not whitelisted" = Example.addXY.Path ++ " is not allowed" ∨
          "/x/y is not whitelisted" = Example.addXY.Path ++ " is not whitelisted") ∧
        Example.addXY.Path.data <:+: "/x/y is not whitelisted".data)) :=
  ⟨by decide,
    rejection_names_path_or_kind literalMatch
      ⟨[Example.rule ["replace"] "/a/b" false none], true⟩ Example.addXY
      "/x/y is not whitelisted" (by decide)⟩

/-- C13, the code at the failing input. The path `/a/b` is matched by both
rules; the first one accepts the `replace`, the second one does not list it.
Allow-list mode returns at the first rule and accepts; `verifyBlacklist`, which
has no `return nil` after a rule passes, consults the second rule and rejects, so
the two modes disagree on a covered path. -/
theorem modes_same_verdict_counterexample :
    (Example.rule ["replace", "add"] "/a" false none).Matches literalMatch
        Example.replaceAB.Path = true ∧
    patchinator.verifyOperation literalMatch
        ⟨[Example.rule ["replace", "add"] "/a" false none,
          Example.rule ["add"] "/a/b" false none], true⟩ Example.replaceAB
      = .ret none ∧
    patchinator.verifyOperation literalMatch
        ⟨[Example.rule ["replace", "add"] "/a" false none,
          Example.rule ["add"] "/a/b" false none], false⟩ Example.replaceAB
      = .ret (some "replace is not in the list of acceptable operations") := by
  decide

/-- C14 (accepted-kind membership). The helper `verifyOperation(op, opList)`
returns nil if and only if `op` is an element of `opList` (equality of strings);
the result depends only on which strings occur in `opList`, not on their order or
repetition; for the empty list it is an error for every `op`; so a rule with an
empty `Op` list rejects, in both modes, every operation whose path it is the
first to match. -/
theorem accepted_kind_membership (Match : R → String → Bool)
    (pre post : PatchRules R V) (r1 : PatchRule R V) (o : Op V) (whitelist : Bool)
    (opList : List String) :
    (verifyOperation o.Op opList = none ↔ o.Op ∈ opList) ∧
    (o.Op ∉ opList → verifyOperation o.Op opList
      = some (o.Op ++ " is not in the list of acceptable operations")) ∧
    (∀ opList', (∀ x, x ∈ opList ↔ x ∈ opList') →
      verifyOperation o.Op opList = verifyOperation o.Op opList') ∧
    verifyOperation o.Op [] = some (o.Op ++ " is not in the list of acceptable operations") ∧
    ((∀ rule ∈ pre, rule.Misses Match o.Path = true) →
      r1.Matches Match o.Path = true → r1.Op = [] →
      patchinator.verifyOperation Match ⟨pre ++ r1 :: post, whitelist⟩ o
        = .ret (some (o.Op ++ " is not in the list of acceptable operations"))) := by
  have key : ∀ l : List String, verifyOperation o.Op l
      = if o.Op ∈ l then none
        else some (o.Op ++ " is not in the list of acceptable operations") := by
    intro l
    by_cases h : o.Op ∈ l
    · simp [h, verifyOperation_of_mem h]
    · simp [h, verifyOperation_of_not_mem h]
  refine ⟨?_, ?_, ?_, ?_, ?_⟩
  · rw [key]
    by_cases h : o.Op ∈ opList <;> simp [h]
  · intro h
    exact verifyOperation_of_not_mem h
  · intro opList' hsame
    rw [key, key]
    by_cases h : o.Op ∈ opList
    · simp [h, (hsame o.Op).1 h]
    · have h2 : o.Op ∉ opList' := fun h3 => h ((hsame o.Op).2 h3)
      simp [h, h2]
  · exact verifyOperation_of_not_mem (by simp)
  · intro hpre hmatch hempty
    have hk : o.Op ∉ r1.Op := by simp [hempty]
    cases whitelist with
    | true =>
      have := verifyWhitelistLoop_matched Match o r1 post hmatch
      simpa [patchinator.verifyOperation, patchinator.verifyWhitelist,
        verifyWhitelistLoop_skip Match o pre _ hpre, allowListVerdict, hk] using this
    | false =>
      have := verifyBlacklistLoop_matched Match o r1 post hmatch
      simpa [patchinator.verifyOperation, patchinator.verifyBlacklist,
        verifyBlacklistLoop_skip Match o pre _ hpre, denyListVerdict, hk] using this

/-- Witness for C14: a rule for `/a/b` with an empty `Op` list, followed by a rule
that would accept, in deny-list mode; and the kind `Replace` is not the listed
`replace`. -/
theorem accepted_kind_membership_witness :
    patchinator.verifyOperation literalMatch
        ⟨[Example.rule ["add"] "/x" false none] ++ Example.rule [] "/a/b" false none ::
          [Example.rule ["replace"] "/a" false none], false⟩ Example.replaceAB
      = .ret (some "replace is not in the list of acceptable operations") ∧
    verifyOperation "Replace" ["replace", "add", "replace"]
      = some "Replace is not in the list of acceptable operations" ∧
    verifyOperation "replace" ["add", "replace", "add", "replace"] = none :=
  ⟨(accepted_kind_membership literalMatch [Example.rule ["add"] "/x" false none]
      [Example.rule ["replace"] "/a" false none] (Example.rule [] "/a/b" false none)
      Example.replaceAB false ["replace"]).2.2.2.2 (by decide) (by decide) rfl,
    by decide, by decide⟩

/-- C15, refuted as stated: for the `replace` of `/a/b`, the rule that rejects
because `Deny` is set and the rule that rejects because `ShouldAllow` returns
false produce one and the same error, in both modes. -/
theorem rejection_reasons_counterexample :
    (patchinator.verifyOperation literalMatch
        ⟨[Example.rule ["replace"] "/a/b" true none], false⟩ Example.replaceAB
      = .ret (some "/a/b is not allowed") ∧
    patchinator.verifyOperation literalMatch
        ⟨[Example.rule ["replace"] "/a/b" false (some (fun _ _ => false))], false⟩
        Example.replaceAB
      = .ret (some "/a/b is not allowed")) ∧
    (patchinator.verifyOperation literalMatch
        ⟨[Example.rule ["replace"] "/a/b" true none], true⟩ Example.replaceAB
      = .ret (some "/a/b is not allowed") ∧
    patchinator.verifyOperation literalMatch
        ⟨[Example.rule ["replace"] "/a/b" false (some (fun _ _ => false))], true⟩
        Example.replaceAB
      = .ret (some "/a/b is not allowed")) := by
  decide

/-- C15 as amended. For every operation and either mode, a matched,
kind-accepting rule that rejects because `Deny` is set and one that rejects
because `ShouldAllow` returns false produce the same error,
`<path> is not allowed`; this error differs from the kind-not-acceptable error
and from the not-whitelisted error of the operation, and these two differ from
each other. -/
theorem rejection_reasons (Match : R → String → Bool)
    (rDeny rPred rKind : PatchRule R V) (op : Op V) (whitelist : Bool)
    (f : String → V → Bool)
    (hd : rDeny.Matches Match op.Path = true) (hdk : op.Op ∈ rDeny.Op)
    (hdd : rDeny.Deny = true)
    (hp : rPred.Matches Match op.Path = true) (hpk : op.Op ∈ rPred.Op)
    (hpd : rPred.Deny = false) (hpf : rPred.ShouldAllow = some f)
    (hpv : f op.Path op.Value = false)
    (hk : rKind.Matches Match op.Path = true) (hkk : op.Op ∉ rKind.Op) :
    patchinator.verifyOperation Match ⟨[rDeny], whitelist⟩ op
      = .ret (some (op.Path ++ " is not allowed")) ∧
    patchinator.verifyOperation Match ⟨[rPred], whitelist⟩ op
      = .ret (some (op.Path ++ " is not allowed")) ∧
    patchinator.verifyOperation Match ⟨[rDeny], whitelist⟩ op
      ≠ patchinator.verifyOperation Match ⟨[rKind], whitelist⟩ op ∧
    patchinator.verifyOperation Match ⟨[rDeny], whitelist⟩ op
      ≠ patchinator.verifyOperation Match ⟨[], true⟩ op ∧
    patchinator.verifyOperation Match ⟨[rKind], whitelist⟩ op
      ≠ patchinator.verifyOperation Match ⟨[], true⟩ op := by
  have h1 : patchinator.verifyOperation Match ⟨[rDeny], whitelist⟩ op
      = .ret (some (op.Path ++ " is not allowed")) := by
    rw [verifyOperation_single_matched Match op rDeny whitelist hd]
    simp [denyListVerdict, hdk, hdd]
  have h2 : patchinator.verifyOperation Match ⟨[rPred], whitelist⟩ op
      = .ret (some (op.Path ++ " is not allowed")) := by
    rw [verifyOperation_single_matched Match op rPred whitelist hp]
    simp [denyListVerdict, hpk, hpd, hpf, hpv]
  have h3 : patchinator.verifyOperation Match ⟨[rKind], whitelist⟩ op
      = .ret (some (op.Op ++ " is not in the list of acceptable operations")) := by
    rw [verifyOperation_single_matched Match op rKind whitelist hk]
    simp [denyListVerdict, hkk]
  have h4 : patchinator.verifyOperation Match ⟨([] : PatchRules R V), true⟩ op
      = .ret (some (op.Path ++ " is not whitelisted")) := rfl
  refine ⟨h1, h2, ?_, ?_, ?_⟩
  · rw [h1, h3]
    intro h
    exact not_allowed_ne_kind_message _ _ (Option.some.inj (Exec.ret.inj h))
  · rw [h1, h4]
    intro h
    exact not_allowed_ne_not_whitelisted _ (Option.some.inj (Exec.ret.inj h))
  · rw [h3, h4]
    intro h
    exact not_whitelisted_ne_kind_message _ _ (Option.some.inj (Exec.ret.inj h)).symm

/-- Witness for amended C15: the denying rule, the refusing predicate and the
rule for `add` only, on the `replace` of `/a/b` in allow-list mode. -/
theorem rejection_reasons_witness :
    patchinator.verifyOperation literalMatch
        ⟨[Example.rule ["replace"] "/a/b" true none], true⟩ Example.replaceAB
      = .ret (some "/a/b is not allowed") ∧
    patchinator.verifyOperation literalMatch
        ⟨[Example.rule ["replace"] "/a/b" false (some (fun _ _ => false))], true⟩
        Example.replaceAB
      = .ret (some "/a/b is not allowed") :=
  have h := rejection_reasons literalMatch (Example.rule ["replace"] "/a/b" true none)
    (Example.rule ["replace"] "/a/b" false (some (fun _ _ => false)))
    (Example.rule ["add"] "/a/b" false none) Example.replaceAB true (fun _ _ => false)
    (by decide) (by decide) rfl (by decide) (by decide) rfl rfl rfl (by decide) (by decide)
  ⟨h.1, h.2.1⟩

/-- C16 (path patterns are unanchored regular expressions), on the model of the
pattern language. A rule whose `Path` has no metacharacter is compiled by
`NewPatchinator` and then matches a path if and only if the path contains `Path`
as a contiguous run of characters; a rule whose `Path` is `^/a/.*` is compiled
and then matches exactly the paths that begin with `/a/`; and a rule that
matches the path gives its verdict in either mode. -/
theorem unanchored_patterns (rule : PatchRule Regexp V) (path : String) :
    ((∀ c ∈ rule.Path.data, c ∉ metaChars) →
      ∃ r, NewPatchinator modelCompile [rule] = (some ⟨[r], false⟩, none) ∧
        (r.Matches modelMatch path = true ↔ rule.Path.data <:+: path.data)) ∧
    (rule.Path = "^/a/.*" →
      ∃ r, NewPatchinator modelCompile [rule] = (some ⟨[r], false⟩, none) ∧
        (r.Matches modelMatch path = true ↔ "/a/".data <+: path.data)) ∧
    (∀ (r : PatchRule Regexp V) (op : Op V) (whitelist : Bool),
      r.Matches modelMatch op.Path = true →
      patchinator.verifyOperation modelMatch ⟨[r], whitelist⟩ op
        = .ret (denyListVerdict r op)) := by
  refine ⟨?_, ?_, ?_⟩
  · intro hlit
    have hc : modelCompile rule.Path
        = .ok (rule.Path.data.map (fun c => Item.one (.lit c))) :=
      parseItems_literal rule.Path rule.Path.data hlit
    refine ⟨_, NewPatchinator_single modelCompile rule _ hc, ?_⟩
    have hm : ∀ b t, matchHere (rule.Path.data.map (fun c => Item.one (.lit c))) b t
        = rule.Path.data.isPrefixOf t := by
      intro b t
      have := matchHere_literal rule.Path.data [] (fun _ _ => rfl) b t
      simpa using this
    have := matchLater_literal rule.Path.data path.data
    rw [hm] at this
    simp only [PatchRule.Matches, modelMatch]
    rw [hm]
    exact this
  · intro hpat
    have hc : modelCompile rule.Path
        = .ok [.bol, .one (.lit '/'), .one (.lit 'a'), .one (.lit '/'), .star .dot] := by
      rw [hpat]
      rfl
    refine ⟨_, NewPatchinator_single modelCompile rule _ hc, ?_⟩
    simp only [PatchRule.Matches]
    rw [modelMatch_anchored, List.isPrefixOf_iff_prefix]
  · intro r op whitelist hm
    exact verifyOperation_single_matched modelMatch op r whitelist hm

/-- Witness for C16: the literal pattern `/a/b` matches `/x/a/b/c`; the pattern
of `TestPatchinator_Run_Regex` matches `/a/b` and not `/x/a/b`, and under it the
`replace` of `/a/b` is accepted. -/
theorem unanchored_patterns_witness :
    (∃ r, NewPatchinator modelCompile
          [(⟨["replace", "add"], none, "/a/b", false, none⟩ : PatchRule Regexp String)]
        = (some ⟨[r], false⟩, none) ∧
      (r.Matches modelMatch "/x/a/b/c" = true ↔ "/a/b".data <:+: "/x/a/b/c".data)) ∧
    "/a/b".data <:+: "/x/a/b/c".data ∧
    modelCompile "^/a/.*"
      = .ok [.bol, .one (.lit '/'), .one (.lit 'a'), .one (.lit '/'), .star .dot] ∧
    modelMatch [.bol, .one (.lit '/'), .one (.lit 'a'), .one (.lit '/'), .star .dot] "/a/b"
      = true ∧
    modelMatch [.bol, .one (.lit '/'), .one (.lit 'a'), .one (.lit '/'), .star .dot] "/x/a/b"
      = false ∧
    patchinator.verifyOperation modelMatch
        ⟨[(⟨["replace", "add"],
            some [.bol, .one (.lit '/'), .one (.lit 'a'), .one (.lit '/'), .star .dot],
            "^/a/.*", false, none⟩ : PatchRule Regexp String)], false⟩ Example.replaceAB
      = .ret none :=
  ⟨(unanchored_patterns
      (⟨["replace", "add"], none, "/a/b", false, none⟩ : PatchRule Regexp String)
      "/x/a/b/c").1 (by decide),
    by decide, rfl, by decide, by decide, by decide⟩

/-- C17 (compiled-matcher invariant). In a Patchinator returned without error by
`NewPatchinator` every rule of the stored list has its matcher (`rex` is set);
`IsWhitelist` keeps it so, and `Run` and `Apply` only read the Patchinator. Hence
for every operation, batch and mode, `verifyWhitelist`, `verifyBlacklist`, `Run`
and `Apply` return: the dereference of `rule.rex` never meets a nil pointer. The
empty rule list is included. -/
theorem compiled_matcher_invariant {P : Type} (Compile : String → Except String R)
    (Match : R → String → Bool) (Unmarshal : Bytes → Except String (Patch V))
    (DecodePatch : Bytes → Except String P)
    (PatcherApply : P → Bytes → Option Bytes × GoError)
    (rules : PatchRules R V) (p : patchinator R V)
    (h : NewPatchinator Compile rules = (some p, none)) :
    (∀ rule ∈ p.rules, rule.rex ≠ none) ∧
    (∀ b, ∀ rule ∈ (p.IsWhitelist b).rules, rule.rex ≠ none) ∧
    (∀ b op, (∃ e, (p.IsWhitelist b).verifyWhitelist Match op = .ret e) ∧
      (∃ e, (p.IsWhitelist b).verifyBlacklist Match op = .ret e) ∧
      ∃ e, (p.IsWhitelist b).verifyOperation Match op = .ret e) ∧
    (∀ b bytes, ∃ e, (p.IsWhitelist b).Run Unmarshal Match bytes = .ret e) ∧
    (∀ b patch original, ∃ r,
      (p.IsWhitelist b).Apply Unmarshal Match DecodePatch PatcherApply patch original
        = .ret r) := by
  have hrex := NewPatchinator_rex Compile rules p h
  have hrun : ∀ b bytes, ∃ e, (p.IsWhitelist b).Run Unmarshal Match bytes = .ret e := by
    intro b bytes
    cases hd : Unmarshal bytes with
    | error err => exact ⟨some err, by simp [patchinator.Run, hd]⟩
    | ok patch =>
      obtain ⟨e, he⟩ := runLoop_returns Match (p.IsWhitelist b) patch hrex
      exact ⟨e, by simp [patchinator.Run, hd, he]⟩
  refine ⟨hrex, fun _ => hrex, ?_, hrun, ?_⟩
  · intro b op
    exact ⟨verifyWhitelistLoop_returns Match op p.rules hrex,
      verifyBlacklistLoop_returns Match op p.rules hrex,
      verifyOperation_returns Match (p.IsWhitelist b) op hrex⟩
  · intro b patch original
    obtain ⟨e, he⟩ := hrun b patch
    cases e with
    | some err => exact ⟨(none, some err), by simp [patchinator.Apply, he]⟩
    | none =>
      cases hd : DecodePatch patch with
      | error err => exact ⟨(none, some err), by simp [patchinator.Apply, he, hd]⟩
      | ok patcher =>
        exact ⟨PatcherApply patcher original, by simp [patchinator.Apply, he, hd]⟩

/-- Witness for C17: a policy of two rules is constructed, both rules get their
matcher, and in allow-list mode `Run` dereferences both (the first misses
`/a/b`, the second matches) and returns; the empty policy is constructed too. -/
theorem compiled_matcher_invariant_witness :
    NewPatchinator literalCompile
        [Example.rawRule ["add"] "/a/c" true, Example.rawRule ["replace"] "/a/b" false]
      = (some ⟨[Example.rule ["add"] "/a/c" true none,
          Example.rule ["replace"] "/a/b" false none], false⟩, none) ∧
    (∀ rule ∈ [Example.rule ["add"] "/a/c" true none,
        Example.rule ["replace"] "/a/b" false none], rule.rex ≠ none) ∧
    (∃ e, patchinator.Run (fun _ => .ok [Example.replaceAB]) literalMatch
      (patchinator.IsWhitelist
        ⟨[Example.rule ["add"] "/a/c" true none,
          Example.rule ["replace"] "/a/b" false none], false⟩ true) [] = .ret e) ∧
    patchinator.Run (fun _ => .ok [Example.replaceAB]) literalMatch
      (patchinator.IsWhitelist
        ⟨[Example.rule ["add"] "/a/c" true none,
          Example.rule ["replace"] "/a/b" false none], false⟩ true) [] = .ret none ∧
    (∃ e, patchinator.Run (fun _ => .ok [Example.replaceAB]) literalMatch
      (patchinator.IsWhitelist (⟨[], false⟩ : patchinator String String) true) []
        = .ret e) :=
  have h := compiled_matcher_invariant literalCompile literalMatch
    (fun _ => .ok [Example.replaceAB]) (fun _ => (.ok () : Except String Unit))
    (fun _ original => (some original, none))
    [Example.rawRule ["add"] "/a/c" true, Example.rawRule ["replace"] "/a/b" false]
    ⟨[Example.rule ["add"] "/a/c" true none,
      Example.rule ["replace"] "/a/b" false none], false⟩ rfl
  ⟨rfl, h.1, h.2.2.2.1 true [], by decide,
    (compiled_matcher_invariant literalCompile literalMatch
      (fun _ => .ok [Example.replaceAB]) (fun _ => (.ok () : Except String Unit))
      (fun _ original => (some original, none)) ([] : PatchRules String String)
      ⟨[], false⟩ rfl).2.2.2.1 true []⟩

/-- C18 (deny-list mode is a conjunction over all matching rules). With compiled
matchers, `verifyBlacklist` accepts an operation if and only if every rule whose
pattern matches the path, not only the first, accepts it (kind in `Op`, `Deny`
false, `ShouldAllow` nil or true). It rejects with `err` exactly when `err` is the
verdict of the first rule in declared order that matches the path and fails a
check, the kind being checked before `Deny` and `ShouldAllow`. -/
theorem deny_list_conjunction (Match : R → String → Bool) (rules : PatchRules R V)
    (op : Op V) (hc : ∀ rule ∈ rules, rule.rex ≠ none) :
    (patchinator.verifyBlacklist Match ⟨rules, false⟩ op = .ret none
      ↔ ∀ rule ∈ rules, rule.Matches Match op.Path = true → rule.Accepts op = true) ∧
    (∀ err, patchinator.verifyBlacklist Match ⟨rules, false⟩ op = .ret (some err)
      ↔ ∃ pre r post, rules = pre ++ r :: post ∧
          (∀ x ∈ pre, x.Matches Match op.Path = true → x.Accepts op = true) ∧
          r.Matches Match op.Path = true ∧ r.Accepts op = false ∧
          denyListVerdict r op = some err ∧
          (op.Op ∉ r.Op → err = op.Op ++ " is not in the list of acceptable operations") ∧
          (op.Op ∈ r.Op → err = op.Path ++ " is not allowed")) := by
  refine ⟨verifyBlacklistLoop_eq_nil_iff Match op rules hc, fun err => ⟨?_, ?_⟩⟩
  · intro h
    obtain ⟨pre, r, post, hr, hpre, hrm, hrv⟩ :=
      verifyBlacklistLoop_error_origin Match op rules err h
    refine ⟨pre, r, post, hr, hpre, hrm, ?_, hrv, ?_, ?_⟩
    · cases hacc : r.Accepts op with
      | false => rfl
      | true =>
        rw [(denyListVerdict_eq_none_iff r op).2 hacc] at hrv
        exact absurd hrv (by simp)
    · intro hk
      simp [denyListVerdict, hk] at hrv
      exact hrv.symm
    · intro hk
      rcases denyListVerdict_form r op err hrv with h1 | h1
      · simp only [denyListVerdict, hk, not_true_eq_false, if_false] at hrv
        split at hrv
        · exact (Option.some.inj hrv).symm
        · split at hrv
          · exact (Option.some.inj hrv).symm
          · exact absurd hrv (by simp)
      · exact h1
  · rintro ⟨pre, r, post, hr, hpre, hrm, _, hrv, _, _⟩
    subst hr
    have hcpre : ∀ x ∈ pre, x.rex ≠ none := fun x hx => hc x (by simp [hx])
    show verifyBlacklistLoop Match op (pre ++ r :: post) = .ret (some err)
    rw [verifyBlacklistLoop_skip_passing Match op pre _ hcpre hpre,
      verifyBlacklistLoop_matched Match op r post hrm, hrv]

/-- Witness for C18: the first rule matching `/a/b` accepts the `replace`, the
second one denies; the operation is rejected with the second rule's error. -/
theorem deny_list_conjunction_witness :
    (∀ rule ∈ [Example.rule ["replace"] "/a" false none,
        Example.rule ["replace"] "/a/b" true none], rule.rex ≠ none) ∧
    patchinator.verifyBlacklist literalMatch
        ⟨[Example.rule ["replace"] "/a" false none,
          Example.rule ["replace"] "/a/b" true none], false⟩ Example.replaceAB
      = .ret (some "/a/b is not allowed") :=
  ⟨by decide,
    ((deny_list_conjunction literalMatch
        [Example.rule ["replace"] "/a" false none,
          Example.rule ["replace"] "/a/b" true none] Example.replaceAB
        (by decide)).2 "/a/b is not allowed").2
      ⟨[Example.rule ["replace"] "/a" false none],
        Example.rule ["replace"] "/a/b" true none, [], rfl, by decide, by decide,
        by decide, by decide, by decide, by decide⟩⟩

/-- C19 (relation between the modes on covered paths). For an operation whose
path is matched by some rule: if deny-list mode accepts it, allow-list mode
accepts it too; and if the first matching rule rejects it, both modes return one
and the same error, although allow-list mode tests `ShouldAllow` before `Deny`
and deny-list mode `Deny` before `ShouldAllow`. -/
theorem modes_on_covered_paths (Match : R → String → Bool) (rules : PatchRules R V)
    (op : Op V) (hex : ∃ rule ∈ rules, rule.Matches Match op.Path = true) :
    (patchinator.verifyOperation Match ⟨rules, false⟩ op = .ret none →
      patchinator.verifyOperation Match ⟨rules, true⟩ op = .ret none) ∧
    (∀ pre r1 post, rules = pre ++ r1 :: post →
      (∀ rule ∈ pre, rule.Misses Match op.Path = true) →
      r1.Matches Match op.Path = true → r1.Accepts op = false →
      ∃ err, patchinator.verifyOperation Match ⟨rules, true⟩ op = .ret (some err) ∧
        patchinator.verifyOperation Match ⟨rules, false⟩ op = .ret (some err) ∧
        allowListVerdict r1 op = some err ∧ denyListVerdict r1 op = some err) := by
  constructor
  · intro h
    have hb : verifyBlacklistLoop Match op rules = .ret none := by
      simpa [patchinator.verifyOperation, patchinator.verifyBlacklist] using h
    have := whitelist_nil_of_blacklist_nil Match op rules hb hex
    simpa [patchinator.verifyOperation, patchinator.verifyWhitelist] using this
  · intro pre r1 post hr hpre hmatch hrej
    subst hr
    cases hd : denyListVerdict r1 op with
    | none =>
      rw [(denyListVerdict_eq_none_iff r1 op).1 hd] at hrej
      exact absurd hrej (by simp)
    | some err =>
      refine ⟨err, ?_, ?_, by rw [allowListVerdict_eq_denyListVerdict, hd], rfl⟩
      · show verifyWhitelistLoop Match op (pre ++ r1 :: post) = .ret (some err)
        rw [verifyWhitelistLoop_skip Match op pre _ hpre,
          verifyWhitelistLoop_matched Match op r1 post hmatch,
          allowListVerdict_eq_denyListVerdict, hd]
      · show verifyBlacklistLoop Match op (pre ++ r1 :: post) = .ret (some err)
        rw [verifyBlacklistLoop_skip Match op pre _ hpre,
          verifyBlacklistLoop_matched Match op r1 post hmatch, hd]

/-- Witness for C19: a rule with `Deny` set and a predicate that refuses; the two
modes meet the two checks in opposite orders and return the same error. -/
theorem modes_on_covered_paths_witness :
    (∃ rule ∈ [Example.rule ["replace"] "/a/b" true (some (fun _ _ => false))],
        rule.Matches literalMatch Example.replaceAB.Path = true) ∧
    ∃ err,
      patchinator.verifyOperation literalMatch
          ⟨[Example.rule ["replace"] "/a/b" true (some (fun _ _ => false))], true⟩
          Example.replaceAB = .ret (some err) ∧
      patchinator.verifyOperation literalMatch
          ⟨[Example.rule ["replace"] "/a/b" true (some (fun _ _ => false))], false⟩
          Example.replaceAB = .ret (some err) ∧
      allowListVerdict (Example.rule ["replace"] "/a/b" true (some (fun _ _ => false)))
          Example.replaceAB = some err ∧
      denyListVerdict (Example.rule ["replace"] "/a/b" true (some (fun _ _ => false)))
          Example.replaceAB = some err :=
  ⟨⟨_, List.mem_cons_self _ _, by decide⟩,
    (modes_on_covered_paths literalMatch
        [Example.rule ["replace"] "/a/b" true (some (fun _ _ => false))] Example.replaceAB
        ⟨_, List.mem_cons_self _ _, by decide⟩).2
      [] (Example.rule ["replace"] "/a/b" true (some (fun _ _ => false))) [] rfl
      (by decide) (by decide) (by decide)⟩

end Claims

end Gopatchinator
